import Mathlib

/-!
Verification development for `ml_adp.mapping.convex` (the three PICNN variants
`PICNN1`, `PICNN2`, `PICNN3`).

Modelling conventions:
* Tensors are modelled coordinate-wise over the reals: a (batched) vector is a
  function `ℕ → ℝ`; batching plays no role for the value-level claims (every
  torch operation involved acts row-wise), so a single row is modelled.
  Shape-level behavior (batch sizes, trailing widths, broadcasting) is modelled
  separately by a shape calculus further below.
* The collaborators `ml_adp.nn.Layer`, `ml_adp.nn.FFN`, `ml_adp.nn.IPReLU` are
  not part of the given source excerpt; they are modelled from the spec
  (sections 2, 6 and 7a), with batch normalization taken in evaluation mode as a
  per-coordinate affine reparametrization (the spec declares batch-norm
  numerics out of scope).
* Random weight initialization is abstracted by oracle arguments supplying the
  raw weight entries.
-/

open scoped BigOperators

/-- A (single-row) real tensor, coordinate-wise. -/
abbrev Vec := ℕ → ℝ

/-- `torch.nn.functional.relu`, scalar. -/
def relu (x : ℝ) : ℝ := max x 0

/-- `torch.nn.Sigmoid`: the logistic function. -/
noncomputable def sigmoid (x : ℝ) : ℝ := 1 / (1 + Real.exp (-x))

/-- `torch.nn.ELU` with the default `alpha = 1`. -/
noncomputable def elu (x : ℝ) : ℝ := if x < 0 then Real.exp x - 1 else x

/-- Modelled from the spec: `ml_adp.nn.IPReLU`, the "parametrized, increasing
variant of PReLU" of spec section 4.2 whose slope below zero is constrained to be
non-negative (here via `relu` of the raw slope parameter). -/
def iprelu (slope : ℝ) (x : ℝ) : ℝ := relu x - relu slope * relu (-x)

/-- Modelled from the spec: an `ml_adp.nn.Layer` (the AffineLayer collaborator of
spec sections 2 and 6): a parametrized affine map with an optional post-hoc
constraint on the weight matrix (the effective weight is `constraint` applied to
the raw weight), optional pre-output normalization (evaluation-mode batch
normalization, i.e. a per-coordinate affine map `z ↦ normScale * z + normShift`),
and an optional nonlinearity applied after normalization. -/
structure Layer where
  inDim : ℕ
  outDim : ℕ
  rawWeight : ℕ → ℕ → ℝ
  biasVal : ℕ → ℝ
  useBias : Bool
  constraint : Option (ℝ → ℝ)
  normScale : ℕ → ℝ
  normShift : ℕ → ℝ
  act : ℝ → ℝ

/-- The effective weight matrix of a layer: the raw weights with the post-hoc
constraint function (if any) applied entrywise. -/
def Layer.effWeight (L : Layer) (j i : ℕ) : ℝ :=
  match L.constraint with
  | some f => f (L.rawWeight j i)
  | none => L.rawWeight j i

/-- The affine part of a layer: `W·x + b` coordinate-wise. -/
def Layer.linear (L : Layer) (x : Vec) (j : ℕ) : ℝ :=
  (∑ i in Finset.range L.inDim, L.effWeight j i * x i) +
    (if L.useBias then L.biasVal j else 0)

/-- Full application of a layer: affine part, then normalization, then the
activation. -/
def Layer.apply (L : Layer) (x : Vec) : Vec :=
  fun j => L.act (L.normScale j * L.linear x j + L.normShift j)

/-- Modelled from the spec: the FeedForwardStack collaborator (`ml_adp.nn.FFN`),
an ordered composition of layers. -/
structure FFN where
  layers : List Layer

/-- Whole-stack application (`self.L(params)` in the source). -/
def FFN.apply (f : FFN) (x : Vec) : Vec :=
  f.layers.foldl (fun v L => L.apply v) x

/-- Step-indexed application (`self.L[k](params)` in the source). -/
def FFN.step (f : FFN) (k : ℕ) (x : Vec) : Vec :=
  match f.layers.get? k with
  | some L => L.apply x
  | none => x

/-! ### The PICNN1 architecture (`convex.py`, lines 10-129) -/

/-- State of a `PICNN1` instance after construction.  The fields mirror the
attributes set in `PICNN1.__init__`: the per-step layer banks `A`, `U`, `B`,
`V`, `W`, the step activations, the parameter net `L`, the stored floor
function, and the (computed but unused in `forward`) input batch-norm, in
evaluation mode. -/
structure PICNN1 where
  steps : ℕ
  inputNormDim : ℕ
  inputNormScale : ℕ → ℝ
  inputNormShift : ℕ → ℝ
  activations : ℕ → ℝ → ℝ
  floorF : ℝ → ℝ
  L : FFN
  A : ℕ → Layer
  U : ℕ → Layer
  B : ℕ → Layer
  V : ℕ → Layer
  W : ℕ → Layer

/-- `self.input_norm(inputs)`: the input batch normalization of `PICNN1`,
in evaluation mode. -/
def PICNN1.inputsNormed (net : PICNN1) (inputs : Vec) : Vec :=
  fun j => net.inputNormScale j * inputs j + net.inputNormShift j

/-- One iteration of the loop body of `PICNN1.forward` (source lines 122-127);
the loop state is the pair `(intermediates, params)`. -/
def PICNN1.stepFn (net : PICNN1) (inputs : Vec) (st : Vec × Vec) (k : ℕ) :
    Vec × Vec :=
  let intermediates1 := (net.A k).apply (fun i => st.1 i * (net.U k).apply st.2 i)
  let intermediates2 := (net.B k).apply (fun i => inputs i * (net.V k).apply st.2 i)
  let pre : Vec := fun j => intermediates1 j + intermediates2 j + (net.W k).apply st.2 j
  (fun j => net.activations k (pre j), net.L.step k st.2)

/-- `PICNN1.forward` (source lines 116-129): computes (and discards) the
normalized inputs, then iterates the step for `k = 0, …, steps-1` on the state
pair `(intermediates, params)`, returning the final intermediates. -/
def PICNN1.forward (net : PICNN1) (inputs params : Vec) : Vec :=
  let _inputsNormed := net.inputsNormed inputs
  ((List.range net.steps).foldl (net.stepFn inputs) (inputs, params)).1

/-! ### The PICNN2 architecture (`convex.py`, lines 132-246) -/

/-- State of a `PICNN2` instance after construction (attributes of
`PICNN2.__init__`). -/
structure PICNN2 where
  steps : ℕ
  inputNormDim : ℕ
  inputNormScale : ℕ → ℝ
  inputNormShift : ℕ → ℝ
  activations : ℕ → ℝ → ℝ
  floorF : ℝ → ℝ
  L : FFN
  A : ℕ → Layer
  U : ℕ → Layer
  B : ℕ → Layer
  V : ℕ → Layer
  W : ℕ → Layer

/-- One iteration of the loop body of `PICNN2.forward` (source lines 240-244);
`params` is the already-embedded context, fixed across steps. -/
def PICNN2.stepFn (net : PICNN2) (inputs params : Vec) (x : Vec) (k : ℕ) : Vec :=
  let intermediates1 := (net.A k).apply (fun i => x i * (net.U k).apply params i)
  let intermediates2 := (net.B k).apply (fun i => inputs i * (net.V k).apply params i)
  fun j => net.activations k
    (intermediates1 j + intermediates2 j + (net.W k).apply params j)

/-- `PICNN2.forward` (source lines 235-246): embeds the context once through the
whole stack, then iterates the step for `k = 0, …, steps-1`. -/
def PICNN2.forward (net : PICNN2) (inputs params : Vec) : Vec :=
  let params2 := net.L.apply params
  (List.range net.steps).foldl (net.stepFn inputs params2) inputs

/-! ### The PICNN3 architecture (`convex.py`, lines 249-376) -/

/-- State of a `PICNN3` instance after construction (attributes of
`PICNN3.__init__`): as `PICNN2` but with the additional per-step gate bank `Y`
and no stored step activations. -/
structure PICNN3 where
  steps : ℕ
  inputNormDim : ℕ
  inputNormScale : ℕ → ℝ
  inputNormShift : ℕ → ℝ
  floorF : ℝ → ℝ
  L : FFN
  A : ℕ → Layer
  U : ℕ → Layer
  B : ℕ → Layer
  V : ℕ → Layer
  W : ℕ → Layer
  Y : ℕ → Layer

/-- `PICNN3.prelu` (source lines 354-356), scalar. -/
def PICNN3.prelu (inputs weights : ℝ) : ℝ :=
  relu inputs - weights * relu (-inputs)

/-- `PICNN3.celu` (source lines 358-362), scalar: the gated smooth activation.
The source's default value of `eps` is `1e-2`; callers pass it explicitly
here. -/
noncomputable def PICNN3.celu (inputs weights eps : ℝ) : ℝ :=
  let weights2 := weights + eps
  let inputsNp := -(relu (-inputs))
  relu inputs - relu ((1 - Real.exp inputsNp) / weights2) * weights2

/-- The construction constant `eps = 1e-2` of `PICNN3.celu`. -/
noncomputable def celuEps : ℝ := 1 / 100

/-- One iteration of the loop body of `PICNN3.forward` (source lines 370-374). -/
noncomputable def PICNN3.stepFn (net : PICNN3) (inputs params : Vec) (x : Vec)
    (k : ℕ) : Vec :=
  let intermediates1 := (net.A k).apply (fun i => x i * (net.U k).apply params i)
  let intermediates2 := (net.B k).apply (fun i => inputs i * (net.V k).apply params i)
  fun j => PICNN3.celu
    (intermediates1 j + intermediates2 j + (net.W k).apply params j)
    ((net.Y k).apply params j) celuEps

/-- `PICNN3.forward` (source lines 365-376). -/
noncomputable def PICNN3.forward (net : PICNN3) (inputs params : Vec) : Vec :=
  let params2 := net.L.apply params
  (List.range net.steps).foldl (net.stepFn inputs params2) inputs

/-! ### Construction (`__init__` of the three variants)

Errors arising during construction.  `configError` is the ConfigurationError of
spec section 7a (raised by the spec-modelled collaborator factories on malformed
sizes); `indexError` models Python list indexing out of range; `torchError`
models errors raised inside torch primitives (e.g. creating a
`BatchNorm1d` with a negative feature count). -/

inductive BuildError where
  | configError : BuildError
  | indexError : BuildError
  | torchError : BuildError
deriving DecidableEq

/-- Python list indexing `l[i]` (non-negative index): `IndexError` when out of
range. -/
def expectIdx (l : List ℤ) (i : ℕ) : Except BuildError ℤ :=
  match l.get? i with
  | some v => Except.ok v
  | none => Except.error BuildError.indexError

/-- Python list indexing `l[-1]`: `IndexError` on the empty list. -/
def expectLast (l : List ℤ) : Except BuildError ℤ :=
  match l.getLast? with
  | some v => Except.ok v
  | none => Except.error BuildError.indexError

/-- `torch.nn.BatchNorm1d(n, affine=False)`: fails on a negative feature count,
otherwise records the feature count (running statistics are bookkeeping outside
the modelled scope). -/
def mkBatchNorm1d (n : ℤ) : Except BuildError ℕ :=
  if n < 0 then Except.error BuildError.torchError else Except.ok n.toNat

/-- Modelled from the spec: the AffineLayer factory of the collaborator contract
(spec section 6), accepting
`(in_dim, out_dim, activation, bias?, batch_normalize?, batch_norm_affine?,
constraint_func?, uniform_init_range?)` and raising the ConfigurationError of
spec section 7a on a non-positive dimension.  `rand` abstracts the random
initialization of the raw weights (seeded from `uniform_init_range`, whose exact
numerics are out of scope); a fresh batch normalization in evaluation mode is
the identity reparametrization. -/
def mkLayer (rand : ℕ → ℕ → ℝ) (inDim outDim : ℤ) (act : Option (ℝ → ℝ))
    (bias : Bool) (_batchNormalize : Bool) (_batchNormAffine : Bool)
    (constraintF : Option (ℝ → ℝ)) (_uniformInitRange : Option (ℝ × ℝ)) :
    Except BuildError Layer :=
  if inDim ≤ 0 ∨ outDim ≤ 0 then Except.error BuildError.configError
  else Except.ok
    { inDim := inDim.toNat
      outDim := outDim.toNat
      rawWeight := rand
      biasVal := fun _ => 0
      useBias := bias
      constraint := constraintF
      normScale := fun _ => 1
      normShift := fun _ => 0
      act := act.getD id }

/-- Modelled from the spec: `FFN.from_config(sizes, hidden_activation,
output_activation, batch_normalize)` (spec section 6), raising the
ConfigurationError of spec section 7a when `sizes` has length < 2 or a
non-positive entry; builds one affine layer per consecutive pair of sizes, with
the hidden activation on all but the last layer and the output activation on
the last. -/
def FFN.fromConfig (rand : ℕ → ℕ → ℕ → ℝ) (sizes : List ℤ) (hiddenAct : ℝ → ℝ)
    (outputAct : Option (ℝ → ℝ)) (_batchNormalize : Bool) :
    Except BuildError FFN :=
  if sizes.length < 2 ∨ sizes.any (fun s => s ≤ 0) then
    Except.error BuildError.configError
  else Except.ok
    ⟨(List.range (sizes.length - 1)).map fun i =>
      { inDim := (sizes.getD i 0).toNat
        outDim := (sizes.getD (i + 1) 0).toNat
        rawWeight := rand i
        biasVal := fun _ => 0
        useBias := true
        constraint := none
        normScale := fun _ => 1
        normShift := fun _ => 0
        act := if i + 2 = sizes.length then outputAct.getD id else hiddenAct }⟩

/-- The recognized keyword options of the three constructors, with their source
defaults in `Opts.default`. -/
structure Opts where
  paramNetBatchNormalize : Bool
  ABLayersBatchNormalize : Bool
  UVWLayersBatchNormalize : Bool
  UVWLayersBatchNormAffine : Bool
  uniformInitRange : ℝ × ℝ
  floorF : ℝ → ℝ

/-- The `kwargs.get` defaults of all three constructors. -/
noncomputable def Opts.default : Opts :=
  { paramNetBatchNormalize := true
    ABLayersBatchNormalize := true
    UVWLayersBatchNormalize := true
    UVWLayersBatchNormAffine := true
    uniformInitRange := (-1, 0)
    floorF := relu }

/-- Effectful map over a list, failing on the first error (the sequencing of
collaborator constructor calls inside a Python `for` loop). -/
def mapE (f : ℕ → Except BuildError α) : List ℕ → Except BuildError (List α)
  | [] => Except.ok []
  | i :: is =>
    match f i with
    | Except.error e => Except.error e
    | Except.ok a =>
      match mapE f is with
      | Except.error e => Except.error e
      | Except.ok rest => Except.ok (a :: rest)

/-- A placeholder layer (used only as the default of total list indexing; never
reachable for indices below the step count of a successfully constructed
network). -/
def dfltLayer : Layer :=
  { inDim := 0
    outDim := 0
    rawWeight := fun _ _ => 0
    biasVal := fun _ => 0
    useBias := false
    constraint := none
    normScale := fun _ => 1
    normShift := fun _ => 0
    act := id }

/-- The per-step layer bundle built by one iteration of the construction loop
of `PICNN1.__init__` (source lines 71-111): `(A_i, U_i, B_i, V_i, W_i)`. -/
noncomputable def PICNN1.mkStep (r : ℕ → ℕ → ℕ → ℕ → ℝ) (inputConfig paramConfig : List ℤ)
    (opts : Opts) (i : ℕ) :
    Except BuildError (Layer × Layer × Layer × Layer × Layer) := do
  let a ← mkLayer (r 0 i) (← expectIdx inputConfig i) (← expectIdx inputConfig (i + 1))
    none false opts.ABLayersBatchNormalize false (some Real.exp)
    (some opts.uniformInitRange)
  let u ← mkLayer (r 1 i) (← expectIdx paramConfig i) (← expectIdx inputConfig i)
    (some opts.floorF) true opts.UVWLayersBatchNormalize
    opts.UVWLayersBatchNormAffine none none
  let b ← mkLayer (r 2 i) (← expectIdx inputConfig 0) (← expectIdx inputConfig (i + 1))
    none false opts.ABLayersBatchNormalize true none none
  let v ← mkLayer (r 3 i) (← expectIdx paramConfig i) (← expectIdx inputConfig 0)
    none true opts.UVWLayersBatchNormalize opts.UVWLayersBatchNormAffine none none
  let w ← mkLayer (r 4 i) (← expectIdx paramConfig i) (← expectIdx inputConfig (i + 1))
    none true opts.UVWLayersBatchNormalize opts.UVWLayersBatchNormAffine none none
  pure (a, u, b, v, w)

/-- `PICNN1.__init__` (source lines 25-111).  `r` abstracts random
initialization; activation arguments are `Option`s, `none` meaning the Python
default `None`. -/
noncomputable def PICNN1.make (r : ℕ → ℕ → ℕ → ℕ → ℝ)
    (inputConfig paramConfig : List ℤ)
    (hiddenActivation outputActivation paramHiddenActivation
      paramOutputActivation : Option (ℝ → ℝ)) (opts : Opts) :
    Except BuildError PICNN1 := do
  let hiddenAct := hiddenActivation.getD elu
  let paramHiddenAct := paramHiddenActivation.getD elu
  let outputAct := outputActivation.getD id
  let activationsList :=
    List.replicate (inputConfig.length - 2) hiddenAct ++ [outputAct]
  let inputNormDim ← mkBatchNorm1d (← expectIdx inputConfig 0)
  let L ← FFN.fromConfig (r 6) paramConfig paramHiddenAct paramOutputActivation
    opts.paramNetBatchNormalize
  let stepLayers ← mapE (PICNN1.mkStep r inputConfig paramConfig opts)
    (List.range (inputConfig.length - 1))
  pure
    { steps := inputConfig.length - 1
      inputNormDim := inputNormDim
      inputNormScale := fun _ => 1
      inputNormShift := fun _ => 0
      activations := fun k => activationsList.getD k id
      floorF := opts.floorF
      L := L
      A := fun k => (stepLayers.getD k (dfltLayer, dfltLayer, dfltLayer, dfltLayer, dfltLayer)).1
      U := fun k => (stepLayers.getD k (dfltLayer, dfltLayer, dfltLayer, dfltLayer, dfltLayer)).2.1
      B := fun k => (stepLayers.getD k (dfltLayer, dfltLayer, dfltLayer, dfltLayer, dfltLayer)).2.2.1
      V := fun k => (stepLayers.getD k (dfltLayer, dfltLayer, dfltLayer, dfltLayer, dfltLayer)).2.2.2.1
      W := fun k => (stepLayers.getD k (dfltLayer, dfltLayer, dfltLayer, dfltLayer, dfltLayer)).2.2.2.2 }

/-- The per-step layer bundle built by one iteration of the construction loop
of `PICNN2.__init__` (source lines 192-230): `U`, `V`, `W` consume
`param_config[-1]`-dimensioned input. -/
noncomputable def PICNN2.mkStep (r : ℕ → ℕ → ℕ → ℕ → ℝ) (inputConfig paramConfig : List ℤ)
    (opts : Opts) (i : ℕ) :
    Except BuildError (Layer × Layer × Layer × Layer × Layer) := do
  let a ← mkLayer (r 0 i) (← expectIdx inputConfig i) (← expectIdx inputConfig (i + 1))
    none false opts.ABLayersBatchNormalize false (some Real.exp)
    (some opts.uniformInitRange)
  let u ← mkLayer (r 1 i) (← expectLast paramConfig) (← expectIdx inputConfig i)
    (some opts.floorF) true opts.UVWLayersBatchNormalize
    opts.UVWLayersBatchNormAffine none none
  let b ← mkLayer (r 2 i) (← expectIdx inputConfig 0) (← expectIdx inputConfig (i + 1))
    none false opts.ABLayersBatchNormalize true none none
  let v ← mkLayer (r 3 i) (← expectLast paramConfig) (← expectIdx inputConfig 0)
    none true opts.UVWLayersBatchNormalize opts.UVWLayersBatchNormAffine none none
  let w ← mkLayer (r 4 i) (← expectLast paramConfig) (← expectIdx inputConfig (i + 1))
    none true opts.UVWLayersBatchNormalize opts.UVWLayersBatchNormAffine none none
  pure (a, u, b, v, w)

/-- `PICNN2.__init__` (source lines 147-230).  The default hidden activation is
`IPReLU` (its raw slope abstracted from the oracle as `r 7 0 0 0`). -/
noncomputable def PICNN2.make (r : ℕ → ℕ → ℕ → ℕ → ℝ)
    (inputConfig paramConfig : List ℤ)
    (hiddenActivation outputActivation paramHiddenActivation
      paramOutputActivation : Option (ℝ → ℝ)) (opts : Opts) :
    Except BuildError PICNN2 := do
  let hiddenAct := hiddenActivation.getD (iprelu (r 7 0 0 0))
  let paramHiddenAct := paramHiddenActivation.getD elu
  let outputAct := outputActivation.getD id
  let activationsList :=
    List.replicate (inputConfig.length - 2) hiddenAct ++ [outputAct]
  let inputNormDim ← mkBatchNorm1d (← expectIdx inputConfig 0)
  let L ← FFN.fromConfig (r 6) paramConfig paramHiddenAct paramOutputActivation
    opts.paramNetBatchNormalize
  let stepLayers ← mapE (PICNN2.mkStep r inputConfig paramConfig opts)
    (List.range (inputConfig.length - 1))
  pure
    { steps := inputConfig.length - 1
      inputNormDim := inputNormDim
      inputNormScale := fun _ => 1
      inputNormShift := fun _ => 0
      activations := fun k => activationsList.getD k id
      floorF := opts.floorF
      L := L
      A := fun k => (stepLayers.getD k (dfltLayer, dfltLayer, dfltLayer, dfltLayer, dfltLayer)).1
      U := fun k => (stepLayers.getD k (dfltLayer, dfltLayer, dfltLayer, dfltLayer, dfltLayer)).2.1
      B := fun k => (stepLayers.getD k (dfltLayer, dfltLayer, dfltLayer, dfltLayer, dfltLayer)).2.2.1
      V := fun k => (stepLayers.getD k (dfltLayer, dfltLayer, dfltLayer, dfltLayer, dfltLayer)).2.2.2.1
      W := fun k => (stepLayers.getD k (dfltLayer, dfltLayer, dfltLayer, dfltLayer, dfltLayer)).2.2.2.2 }

/-- The per-step layer bundle built by one iteration of the construction loop of
`PICNN3.__init__` (source lines 304-349): as for `PICNN2` plus the gate layer
`Y` with a `Sigmoid` activation. -/
noncomputable def PICNN3.mkStep (r : ℕ → ℕ → ℕ → ℕ → ℝ)
    (inputConfig paramConfig : List ℤ) (opts : Opts) (i : ℕ) :
    Except BuildError (Layer × Layer × Layer × Layer × Layer × Layer) := do
  let a ← mkLayer (r 0 i) (← expectIdx inputConfig i) (← expectIdx inputConfig (i + 1))
    none false opts.ABLayersBatchNormalize false (some Real.exp)
    (some opts.uniformInitRange)
  let u ← mkLayer (r 1 i) (← expectLast paramConfig) (← expectIdx inputConfig i)
    (some opts.floorF) true opts.UVWLayersBatchNormalize
    opts.UVWLayersBatchNormAffine none none
  let b ← mkLayer (r 2 i) (← expectIdx inputConfig 0) (← expectIdx inputConfig (i + 1))
    none false opts.ABLayersBatchNormalize true none none
  let v ← mkLayer (r 3 i) (← expectLast paramConfig) (← expectIdx inputConfig 0)
    none true opts.UVWLayersBatchNormalize opts.UVWLayersBatchNormAffine none none
  let w ← mkLayer (r 4 i) (← expectLast paramConfig) (← expectIdx inputConfig (i + 1))
    none true opts.UVWLayersBatchNormalize opts.UVWLayersBatchNormAffine none none
  let y ← mkLayer (r 5 i) (← expectLast paramConfig) (← expectIdx inputConfig (i + 1))
    (some sigmoid) true true false none none
  pure (a, u, b, v, w, y)

/-- `PICNN3.__init__` (source lines 264-349).  Note that `output_activation` is
received (and defaulted) but never stored. -/
noncomputable def PICNN3.make (r : ℕ → ℕ → ℕ → ℕ → ℝ)
    (inputConfig paramConfig : List ℤ)
    (outputActivation paramHiddenActivation
      paramOutputActivation : Option (ℝ → ℝ)) (opts : Opts) :
    Except BuildError PICNN3 := do
  let paramHiddenAct := paramHiddenActivation.getD elu
  let _outputAct := outputActivation.getD id
  let inputNormDim ← mkBatchNorm1d (← expectIdx inputConfig 0)
  let L ← FFN.fromConfig (r 6) paramConfig paramHiddenAct paramOutputActivation
    opts.paramNetBatchNormalize
  let stepLayers ← mapE (PICNN3.mkStep r inputConfig paramConfig opts)
    (List.range (inputConfig.length - 1))
  pure
    { steps := inputConfig.length - 1
      inputNormDim := inputNormDim
      inputNormScale := fun _ => 1
      inputNormShift := fun _ => 0
      floorF := opts.floorF
      L := L
      A := fun k => (stepLayers.getD k (dfltLayer, dfltLayer, dfltLayer, dfltLayer, dfltLayer, dfltLayer)).1
      U := fun k => (stepLayers.getD k (dfltLayer, dfltLayer, dfltLayer, dfltLayer, dfltLayer, dfltLayer)).2.1
      B := fun k => (stepLayers.getD k (dfltLayer, dfltLayer, dfltLayer, dfltLayer, dfltLayer, dfltLayer)).2.2.1
      V := fun k => (stepLayers.getD k (dfltLayer, dfltLayer, dfltLayer, dfltLayer, dfltLayer, dfltLayer)).2.2.2.1
      W := fun k => (stepLayers.getD k (dfltLayer, dfltLayer, dfltLayer, dfltLayer, dfltLayer, dfltLayer)).2.2.2.2.1
      Y := fun k => (stepLayers.getD k (dfltLayer, dfltLayer, dfltLayer, dfltLayer, dfltLayer, dfltLayer)).2.2.2.2.2 }

/-! ### Per-step evaluation, generically

All three variants iterate the same step shape once the context-derived
quantities are fixed; `runSteps` captures that shape and is where the convexity
and monotonicity arguments live. -/

/-- The context-derived data of one computation step: the layers `A_k`, `B_k`,
the vectors `u_k = U_k(y_k)`, `v_k = V_k(y_k)`, `w_k = W_k(y_k)`, and the
activation (per output coordinate). -/
structure StepData where
  A : Layer
  B : Layer
  u : Vec
  v : Vec
  w : Vec
  g : ℕ → ℝ → ℝ

/-- One step: `x ↦ g(A(x ⊙ u) + B(x_0 ⊙ v) + w)` coordinate-wise. -/
def stepEval (d : StepData) (x0 x : Vec) : Vec :=
  fun j => d.g j
    (d.A.apply (fun i => x i * d.u i) j + d.B.apply (fun i => x0 i * d.v i) j + d.w j)

/-- Iterated steps from the state input `x0`. -/
def runSteps (ds : ℕ → StepData) (x0 : Vec) : ℕ → Vec
  | 0 => x0
  | n + 1 => stepEval (ds n) x0 (runSteps ds x0 n)

/-- Modelled from the spec (section 4.1): the context path `y_0 = y`,
`y_{k+1} = L_k(y_k)` of the step-wise invoked FeedForwardStack. -/
def picnn1SpecY (net : PICNN1) (y : Vec) : ℕ → Vec
  | 0 => y
  | k + 1 => net.L.step k (picnn1SpecY net y k)

/-- Modelled from the spec (section 4.1): the state recurrence
`x_{k+1} = g_k(A_k(x_k ⊙ U_k(y_k)) + B_k(x_0 ⊙ V_k(y_k)) + W_k(y_k))` with the
raw (unnormalized) `x_0` in the `B_k` term. -/
def picnn1SpecX (net : PICNN1) (x y : Vec) : ℕ → Vec
  | 0 => x
  | k + 1 => fun j => net.activations k
      ((net.A k).apply
          (fun i => picnn1SpecX net x y k i * (net.U k).apply (picnn1SpecY net y k) i) j
        + (net.B k).apply (fun i => x i * (net.V k).apply (picnn1SpecY net y k) i) j
        + (net.W k).apply (picnn1SpecY net y k) j)

/-- Modelled from the spec (section 4.2): the single final embedding
`y* = L(y_0)` and the recurrence
`x_{k+1} = g_k(A_k(x_k ⊙ U_k(y*)) + B_k(x_0 ⊙ V_k(y*)) + W_k(y*))` with `y*`
fixed across all steps. -/
def picnn2SpecX (net : PICNN2) (x y : Vec) : ℕ → Vec
  | 0 => x
  | k + 1 => fun j => net.activations k
      ((net.A k).apply
          (fun i => picnn2SpecX net x y k i * (net.U k).apply (net.L.apply y) i) j
        + (net.B k).apply (fun i => x i * (net.V k).apply (net.L.apply y) i) j
        + (net.W k).apply (net.L.apply y) j)

/-- The state recurrence of `PICNN3.forward`: as for `PICNN2` but with
`celu(·, Y_k(y*))` as the step activation. -/
noncomputable def picnn3X (net : PICNN3) (x y : Vec) : ℕ → Vec
  | 0 => x
  | k + 1 => fun j => PICNN3.celu
      ((net.A k).apply
          (fun i => picnn3X net x y k i * (net.U k).apply (net.L.apply y) i) j
        + (net.B k).apply (fun i => x i * (net.V k).apply (net.L.apply y) i) j
        + (net.W k).apply (net.L.apply y) j)
      ((net.Y k).apply (net.L.apply y) j) celuEps

lemma foldl_range_succ {α : Type} (f : α → ℕ → α) (a : α) (n : ℕ) :
    (List.range (n + 1)).foldl f a = f ((List.range n).foldl f a) n := by
  rw [List.range_succ, List.foldl_append, List.foldl_cons, List.foldl_nil]

lemma picnn1_foldl_spec (net : PICNN1) (inputs params : Vec) :
    ∀ n, (List.range n).foldl (net.stepFn inputs) (inputs, params)
      = (picnn1SpecX net inputs params n, picnn1SpecY net params n) := by
  intro n
  induction n with
  | zero => rfl
  | succ n ih => rw [foldl_range_succ, ih]; rfl

/-- `PICNN1.forward` agrees with the spec recurrence. -/
lemma picnn1_forward_eq_spec (net : PICNN1) (inputs params : Vec) :
    net.forward inputs params = picnn1SpecX net inputs params net.steps := by
  show ((List.range net.steps).foldl (net.stepFn inputs) (inputs, params)).1 = _
  rw [picnn1_foldl_spec]

lemma picnn2_foldl_spec (net : PICNN2) (inputs params : Vec) :
    ∀ n, (List.range n).foldl (net.stepFn inputs (net.L.apply params)) inputs
      = picnn2SpecX net inputs params n := by
  intro n
  induction n with
  | zero => rfl
  | succ n ih => rw [foldl_range_succ, ih]; rfl

/-- `PICNN2.forward` agrees with the spec recurrence (shared final context
embedding). -/
lemma picnn2_forward_eq_spec (net : PICNN2) (inputs params : Vec) :
    net.forward inputs params = picnn2SpecX net inputs params net.steps := by
  show (List.range net.steps).foldl (net.stepFn inputs (net.L.apply params)) inputs = _
  exact picnn2_foldl_spec net inputs params net.steps

lemma picnn3_foldl_spec (net : PICNN3) (inputs params : Vec) :
    ∀ n, (List.range n).foldl (net.stepFn inputs (net.L.apply params)) inputs
      = picnn3X net inputs params n := by
  intro n
  induction n with
  | zero => rfl
  | succ n ih => rw [foldl_range_succ, ih]; rfl

lemma picnn3_forward_eq_spec (net : PICNN3) (inputs params : Vec) :
    net.forward inputs params = picnn3X net inputs params net.steps := by
  show (List.range net.steps).foldl (net.stepFn inputs (net.L.apply params)) inputs = _
  exact picnn3_foldl_spec net inputs params net.steps

/-- The context-derived step data of a `PICNN1` at context input `y`. -/
def PICNN1.stepData (net : PICNN1) (y : Vec) (k : ℕ) : StepData :=
  { A := net.A k
    B := net.B k
    u := (net.U k).apply (picnn1SpecY net y k)
    v := (net.V k).apply (picnn1SpecY net y k)
    w := (net.W k).apply (picnn1SpecY net y k)
    g := fun _ => net.activations k }

lemma picnn1SpecX_eq_runSteps (net : PICNN1) (x y : Vec) :
    ∀ n, picnn1SpecX net x y n = runSteps (net.stepData y) x n := by
  intro n
  induction n with
  | zero => rfl
  | succ n ih =>
      show _ = stepEval (net.stepData y n) x (runSteps (net.stepData y) x n)
      rw [← ih]; rfl

/-- The context-derived step data of a `PICNN2` at context input `y`. -/
def PICNN2.stepData (net : PICNN2) (y : Vec) (k : ℕ) : StepData :=
  { A := net.A k
    B := net.B k
    u := (net.U k).apply (net.L.apply y)
    v := (net.V k).apply (net.L.apply y)
    w := (net.W k).apply (net.L.apply y)
    g := fun _ => net.activations k }

lemma picnn2SpecX_eq_runSteps (net : PICNN2) (x y : Vec) :
    ∀ n, picnn2SpecX net x y n = runSteps (net.stepData y) x n := by
  intro n
  induction n with
  | zero => rfl
  | succ n ih =>
      show _ = stepEval (net.stepData y n) x (runSteps (net.stepData y) x n)
      rw [← ih]; rfl

/-- The context-derived step data of a `PICNN3` at context input `y`. -/
noncomputable def PICNN3.stepData (net : PICNN3) (y : Vec) (k : ℕ) : StepData :=
  { A := net.A k
    B := net.B k
    u := (net.U k).apply (net.L.apply y)
    v := (net.V k).apply (net.L.apply y)
    w := (net.W k).apply (net.L.apply y)
    g := fun j s => PICNN3.celu s ((net.Y k).apply (net.L.apply y) j) celuEps }

lemma picnn3X_eq_runSteps (net : PICNN3) (x y : Vec) :
    ∀ n, picnn3X net x y n = runSteps (net.stepData y) x n := by
  intro n
  induction n with
  | zero => rfl
  | succ n ih =>
      show _ = stepEval (net.stepData y n) x (runSteps (net.stepData y) x n)
      rw [← ih]; rfl

/-! ### Convexity and monotonicity of the step recurrence -/

/-- Midpoint form of convexity for scalar functions, as the spec states it:
`g(t·a + (1−t)·b) ≤ t·g(a) + (1−t)·g(b)` for `t ∈ [0,1]`. -/
def ConvexFn (g : ℝ → ℝ) : Prop :=
  ∀ a b t : ℝ, 0 ≤ t → t ≤ 1 → g (t * a + (1 - t) * b) ≤ t * g a + (1 - t) * g b

/-- The convex combination `t·a + (1−t)·b` of two vectors, coordinate-wise. -/
def mix (t : ℝ) (a b : Vec) : Vec := fun i => t * a i + (1 - t) * b i

lemma Layer.apply_id (L : Layer) (h : L.act = id) (x : Vec) (j : ℕ) :
    L.apply x j = L.normScale j * L.linear x j + L.normShift j := by
  unfold Layer.apply; rw [h]; rfl

lemma Layer.apply_nonneg (L : Layer) (hact : ∀ s, 0 ≤ L.act s) (x : Vec) (j : ℕ) :
    0 ≤ L.apply x j := hact _

/-- An activation-free layer applied to `x ⊙ v` is monotone in `x` whenever its
normalization scale and the products of its effective weights with `v` are
non-negative. -/
lemma Layer.apply_prod_mono (L : Layer) (hact : L.act = id)
    (hs : ∀ j, 0 ≤ L.normScale j) (v : Vec)
    (hcoef : ∀ j i, 0 ≤ L.effWeight j i * v i) (xa xb : Vec)
    (h : ∀ i, xa i ≤ xb i) (j : ℕ) :
    L.apply (fun i => xa i * v i) j ≤ L.apply (fun i => xb i * v i) j := by
  rw [L.apply_id hact, L.apply_id hact]
  have hlin : L.linear (fun i => xa i * v i) j ≤ L.linear (fun i => xb i * v i) j := by
    unfold Layer.linear
    refine add_le_add_right (Finset.sum_le_sum fun i _ => ?_) _
    have e1 : L.effWeight j i * (xa i * v i) = L.effWeight j i * v i * xa i := by ring
    have e2 : L.effWeight j i * (xb i * v i) = L.effWeight j i * v i * xb i := by ring
    rw [e1, e2]
    exact mul_le_mul_of_nonneg_left (h i) (hcoef j i)
  have := mul_le_mul_of_nonneg_left hlin (hs j)
  linarith

/-- An activation-free layer is affine: it maps convex combinations to convex
combinations. -/
lemma Layer.apply_mix (L : Layer) (hact : L.act = id) (t : ℝ) (x y : Vec) (j : ℕ) :
    L.apply (mix t x y) j = t * L.apply x j + (1 - t) * L.apply y j := by
  rw [L.apply_id hact, L.apply_id hact, L.apply_id hact]
  have hlin : L.linear (mix t x y) j = t * L.linear x j + (1 - t) * L.linear y j := by
    unfold Layer.linear mix
    have hsum : ∀ i ∈ Finset.range L.inDim,
        L.effWeight j i * (t * x i + (1 - t) * y i)
          = t * (L.effWeight j i * x i) + (1 - t) * (L.effWeight j i * y i) :=
      fun i _ => by ring
    rw [Finset.sum_congr rfl hsum, Finset.sum_add_distrib, ← Finset.mul_sum,
      ← Finset.mul_sum]
    ring
  rw [hlin]; ring

lemma mix_prod (t : ℝ) (xa xb v : Vec) :
    (fun i => mix t xa xb i * v i)
      = mix t (fun i => xa i * v i) (fun i => xb i * v i) := by
  funext i; unfold mix; ring

/-- Convexity of the iterated step recurrence in the state input: with
non-negative `A`-weights and normalization scales, non-negative `u`-gates and
convex increasing step activations, `runSteps` maps convex combinations of state
inputs below the convex combinations of its values. -/
theorem runSteps_convex (ds : ℕ → StepData) (n : ℕ)
    (hAact : ∀ k, k < n → (ds k).A.act = id)
    (hBact : ∀ k, k < n → (ds k).B.act = id)
    (hAs : ∀ k, k < n → ∀ j, 0 ≤ (ds k).A.normScale j)
    (hAw : ∀ k, k < n → ∀ j i, 0 ≤ (ds k).A.effWeight j i)
    (hu : ∀ k, k < n → ∀ i, 0 ≤ (ds k).u i)
    (hg : ∀ k, k < n → ∀ j, ConvexFn ((ds k).g j) ∧ Monotone ((ds k).g j))
    (xa xb : Vec) (t : ℝ) (ht0 : 0 ≤ t) (ht1 : t ≤ 1) :
    ∀ j, runSteps ds (mix t xa xb) n j
      ≤ t * runSteps ds xa n j + (1 - t) * runSteps ds xb n j := by
  induction n with
  | zero => intro j; exact le_of_eq rfl
  | succ n ih =>
      have hlt : n < n + 1 := Nat.lt_succ_self n
      have ih' := ih (fun k hk => hAact k (hk.trans hlt))
        (fun k hk => hBact k (hk.trans hlt)) (fun k hk => hAs k (hk.trans hlt))
        (fun k hk => hAw k (hk.trans hlt)) (fun k hk => hu k (hk.trans hlt))
        (fun k hk => hg k (hk.trans hlt))
      intro j
      set d := ds n with hd
      set Xm := runSteps ds (mix t xa xb) n with hXm
      set Xa := runSteps ds xa n with hXa
      set Xb := runSteps ds xb n with hXb
      have hcoef : ∀ j i, 0 ≤ d.A.effWeight j i * d.u i :=
        fun j i => mul_nonneg (hAw n hlt j i) (hu n hlt i)
      have step1 : d.A.apply (fun i => Xm i * d.u i) j
          ≤ d.A.apply (fun i => mix t Xa Xb i * d.u i) j :=
        d.A.apply_prod_mono (hAact n hlt) (hAs n hlt) d.u hcoef Xm (mix t Xa Xb)
          (fun i => ih' i) j
      have step2 : d.A.apply (fun i => mix t Xa Xb i * d.u i) j
          = t * d.A.apply (fun i => Xa i * d.u i) j
            + (1 - t) * d.A.apply (fun i => Xb i * d.u i) j := by
        rw [mix_prod, d.A.apply_mix (hAact n hlt)]
      have step3 : d.B.apply (fun i => mix t xa xb i * d.v i) j
          = t * d.B.apply (fun i => xa i * d.v i) j
            + (1 - t) * d.B.apply (fun i => xb i * d.v i) j := by
        rw [mix_prod, d.B.apply_mix (hBact n hlt)]
      show d.g j (d.A.apply (fun i => Xm i * d.u i) j
          + d.B.apply (fun i => mix t xa xb i * d.v i) j + d.w j) ≤ _
      have harg : d.A.apply (fun i => Xm i * d.u i) j
            + d.B.apply (fun i => mix t xa xb i * d.v i) j + d.w j
          ≤ t * (d.A.apply (fun i => Xa i * d.u i) j
                + d.B.apply (fun i => xa i * d.v i) j + d.w j)
            + (1 - t) * (d.A.apply (fun i => Xb i * d.u i) j
                + d.B.apply (fun i => xb i * d.v i) j + d.w j) := by
        rw [step3] at *
        have := step1
        rw [step2] at this
        linarith
      have hmono := (hg n hlt j).2 harg
      have hconv := (hg n hlt j).1
        (d.A.apply (fun i => Xa i * d.u i) j + d.B.apply (fun i => xa i * d.v i) j + d.w j)
        (d.A.apply (fun i => Xb i * d.u i) j + d.B.apply (fun i => xb i * d.v i) j + d.w j)
        t ht0 ht1
      exact le_trans hmono hconv

/-- Monotonicity of the iterated step recurrence in the state input, under the
additional hypothesis that the `B`-branch coefficients (effective weights times
`v`-gates, and normalization scales) are non-negative. -/
theorem runSteps_mono (ds : ℕ → StepData) (n : ℕ)
    (hAact : ∀ k, k < n → (ds k).A.act = id)
    (hBact : ∀ k, k < n → (ds k).B.act = id)
    (hAs : ∀ k, k < n → ∀ j, 0 ≤ (ds k).A.normScale j)
    (hAw : ∀ k, k < n → ∀ j i, 0 ≤ (ds k).A.effWeight j i)
    (hu : ∀ k, k < n → ∀ i, 0 ≤ (ds k).u i)
    (hBs : ∀ k, k < n → ∀ j, 0 ≤ (ds k).B.normScale j)
    (hBv : ∀ k, k < n → ∀ j i, 0 ≤ (ds k).B.effWeight j i * (ds k).v i)
    (hgm : ∀ k, k < n → ∀ j, Monotone ((ds k).g j))
    (xa xb : Vec) (hx : ∀ i, xa i ≤ xb i) :
    ∀ j, runSteps ds xa n j ≤ runSteps ds xb n j := by
  induction n with
  | zero => exact hx
  | succ n ih =>
      have hlt : n < n + 1 := Nat.lt_succ_self n
      have ih' := ih (fun k hk => hAact k (hk.trans hlt))
        (fun k hk => hBact k (hk.trans hlt)) (fun k hk => hAs k (hk.trans hlt))
        (fun k hk => hAw k (hk.trans hlt)) (fun k hk => hu k (hk.trans hlt))
        (fun k hk => hBs k (hk.trans hlt)) (fun k hk => hBv k (hk.trans hlt))
        (fun k hk => hgm k (hk.trans hlt))
      intro j
      set d := ds n with hd
      have hcoef : ∀ j i, 0 ≤ d.A.effWeight j i * d.u i :=
        fun j i => mul_nonneg (hAw n hlt j i) (hu n hlt i)
      have stepA : d.A.apply (fun i => runSteps ds xa n i * d.u i) j
          ≤ d.A.apply (fun i => runSteps ds xb n i * d.u i) j :=
        d.A.apply_prod_mono (hAact n hlt) (hAs n hlt) d.u hcoef _ _ ih' j
      have stepB : d.B.apply (fun i => xa i * d.v i) j
          ≤ d.B.apply (fun i => xb i * d.v i) j :=
        d.B.apply_prod_mono (hBact n hlt) (hBs n hlt) d.v (hBv n hlt) _ _ hx j
      exact (hgm n hlt j) (by linarith)

/-! ### Analysis of the `celu` activation -/

lemma relu_of_nonneg {x : ℝ} (h : 0 ≤ x) : relu x = x := max_eq_left h

lemma relu_of_nonpos {x : ℝ} (h : x ≤ 0) : relu x = 0 := max_eq_right h

lemma relu_nonneg (x : ℝ) : 0 ≤ relu x := le_max_right _ _

/-- Unfolded form of `PICNN3.celu`. -/
lemma celu_def (u w eps : ℝ) :
    PICNN3.celu u w eps
      = relu u - relu ((1 - Real.exp (-(relu (-u)))) / (w + eps)) * (w + eps) := rfl

/-- For a positive effective divisor `w + eps`, the gate weight cancels out of
`celu` entirely: `celu(·, w)` is the (alpha = 1) exponential linear unit. -/
lemma celu_eq_elu {w eps : ℝ} (hw : 0 < w + eps) (u : ℝ) :
    PICNN3.celu u w eps = elu u := by
  by_cases h : u < 0
  · have h1 : relu (-u) = -u := relu_of_nonneg (by linarith)
    have h2 : relu u = 0 := relu_of_nonpos h.le
    rw [celu_def, h1, h2, neg_neg]
    have hnum : 0 < 1 - Real.exp u := by
      have := Real.exp_lt_one_iff.mpr h
      linarith
    rw [relu_of_nonneg (le_of_lt (div_pos hnum hw)),
      div_mul_cancel₀ _ (ne_of_gt hw)]
    unfold elu
    rw [if_pos h]
    ring
  · have h0 : 0 ≤ u := not_lt.mp h
    have h1 : relu (-u) = 0 := relu_of_nonpos (neg_nonpos.mpr h0)
    have h2 : relu u = u := relu_of_nonneg h0
    rw [celu_def, h1, h2, neg_zero, Real.exp_zero, sub_self, zero_div,
      relu_of_nonpos le_rfl, zero_mul, sub_zero]
    unfold elu
    rw [if_neg h]

/-- For a non-positive effective divisor, `celu(·, w)` degenerates to `relu`
(in the real-number model, division by zero being zero). -/
lemma celu_eq_relu {w eps : ℝ} (hw : w + eps ≤ 0) (u : ℝ) :
    PICNN3.celu u w eps = relu u := by
  rw [celu_def]
  have hnum : 0 ≤ 1 - Real.exp (-relu (-u)) := by
    have : Real.exp (-relu (-u)) ≤ 1 :=
      Real.exp_le_one_iff.mpr (neg_nonpos.mpr (relu_nonneg _))
    linarith
  rcases lt_or_eq_of_le hw with hlt | heq
  · have hq : (1 - Real.exp (-relu (-u))) / (w + eps) ≤ 0 :=
      div_nonpos_iff.mpr (Or.inl ⟨hnum, hlt.le⟩)
    rw [relu_of_nonpos hq, zero_mul, sub_zero]
  · rw [heq, div_zero, relu_of_nonpos le_rfl, zero_mul, sub_zero]

lemma elu_monotone : Monotone elu := by
  intro a b hab
  unfold elu
  split_ifs with h1 h2
  · have := Real.exp_le_exp.mpr hab
    linarith
  · have : Real.exp a < 1 := Real.exp_lt_one_iff.mpr h1
    have hb : 0 ≤ b := not_lt.mp h2
    linarith
  · linarith
  · exact hab

lemma elu_hasDerivAt (u : ℝ) :
    HasDerivAt elu (if u < 0 then Real.exp u else 1) u := by
  rcases lt_trichotomy u 0 with h | h | h
  · rw [if_pos h]
    have hev : elu =ᶠ[nhds u] fun v => Real.exp v - 1 := by
      filter_upwards [Iio_mem_nhds h] with v hv
      show elu v = Real.exp v - 1
      unfold elu
      rw [if_pos (show v < 0 from hv)]
    exact (((Real.hasDerivAt_exp u).sub_const 1).congr_of_eventuallyEq hev)
  · subst h
    rw [if_neg (lt_irrefl 0)]
    have hh : HasDerivAt (fun v : ℝ => Real.exp v - 1 - v) 0 0 := by
      have h1 := ((Real.hasDerivAt_exp 0).sub_const 1).sub (hasDerivAt_id 0)
      rw [Real.exp_zero] at h1
      simpa using h1
    have hlo : (fun v : ℝ => Real.exp v - 1 - v) =o[nhds (0:ℝ)] fun v => v := by
      have := hasDerivAt_iff_isLittleO.mp hh
      simpa using this
    have hbound : ∀ v : ℝ, ‖elu v - v‖ ≤ ‖Real.exp v - 1 - v‖ := by
      intro v
      unfold elu
      split_ifs with hv
      · exact le_of_eq (by ring_nf)
      · simp
    have hgo : (fun v : ℝ => elu v - v) =o[nhds (0:ℝ)] fun v => v :=
      (Asymptotics.isBigO_of_le _ hbound).trans_isLittleO hlo
    have hg : HasDerivAt (fun v : ℝ => elu v - v) 0 0 := by
      rw [hasDerivAt_iff_isLittleO]
      have h0 : elu 0 - 0 = 0 := by simp [elu]
      simpa [h0] using hgo
    have := hg.add (hasDerivAt_id 0)
    have heq : (fun v : ℝ => elu v - v + id v) = elu := by
      funext v; simp
    rw [heq] at this
    simpa using this
  · rw [if_neg (by linarith : ¬u < 0)]
    have hev : elu =ᶠ[nhds u] fun v => v := by
      filter_upwards [Ioi_mem_nhds h] with v hv
      show elu v = v
      unfold elu
      rw [if_neg (not_lt.mpr (le_of_lt (show (0:ℝ) < v from hv)))]
    exact (hasDerivAt_id u).congr_of_eventuallyEq hev

lemma elu_convexOn : ConvexOn ℝ Set.univ elu := by
  have hdiff : Differentiable ℝ elu := fun u => (elu_hasDerivAt u).differentiableAt
  have hderiv : ∀ u, deriv elu u = if u < 0 then Real.exp u else 1 :=
    fun u => (elu_hasDerivAt u).deriv
  refine Monotone.convexOn_univ_of_deriv hdiff ?_
  intro a b hab
  rw [hderiv, hderiv]
  by_cases h1 : a < 0
  · rw [if_pos h1]
    by_cases h2 : b < 0
    · rw [if_pos h2]
      exact Real.exp_le_exp.mpr hab
    · rw [if_neg h2]
      have : Real.exp a ≤ Real.exp 0 := Real.exp_le_exp.mpr h1.le
      rwa [Real.exp_zero] at this
  · rw [if_neg h1, if_neg (show ¬b < 0 by
      intro hb; exact h1 (lt_of_le_of_lt hab hb))]

lemma convexFn_of_convexOn {g : ℝ → ℝ} (h : ConvexOn ℝ Set.univ g) : ConvexFn g := by
  intro a b t ht0 ht1
  have := h.2 (Set.mem_univ a) (Set.mem_univ b) ht0 (by linarith : (0:ℝ) ≤ 1 - t)
    (by ring : t + (1 - t) = 1)
  simpa [smul_eq_mul] using this

lemma relu_monotone : Monotone relu := fun _ _ h => max_le_max h le_rfl

lemma relu_convexFn : ConvexFn relu := by
  intro a b t ht0 ht1
  unfold relu
  have h1 : t * a ≤ t * max a 0 := mul_le_mul_of_nonneg_left (le_max_left _ _) ht0
  have h2 : (1 - t) * b ≤ (1 - t) * max b 0 :=
    mul_le_mul_of_nonneg_left (le_max_left _ _) (by linarith)
  have h3 : 0 ≤ t * max a 0 := mul_nonneg ht0 (le_max_right _ _)
  have h4 : 0 ≤ (1 - t) * max b 0 := mul_nonneg (by linarith) (le_max_right _ _)
  exact max_le (by linarith) (by linarith)

/-- `celu(·, w)` is convex and increasing in its first argument, for every gate
weight `w` and every `eps`. -/
lemma celu_convexFn_monotone (w eps : ℝ) :
    ConvexFn (fun s => PICNN3.celu s w eps) ∧
      Monotone (fun s => PICNN3.celu s w eps) := by
  rcases le_or_lt (w + eps) 0 with hw | hw
  · have he : (fun s => PICNN3.celu s w eps) = relu := funext (celu_eq_relu hw)
    rw [he]
    exact ⟨relu_convexFn, relu_monotone⟩
  · have he : (fun s => PICNN3.celu s w eps) = elu := funext (celu_eq_elu hw)
    rw [he]
    exact ⟨convexFn_of_convexOn elu_convexOn, elu_monotone⟩

/-! ### Inversion of the construction -/

lemma bindE_ok {α β : Type} {e : Except BuildError α} {g : α → Except BuildError β}
    {b : β} (h : (e >>= g) = Except.ok b) :
    ∃ a, e = Except.ok a ∧ g a = Except.ok b := by
  cases e with
  | error err => simp [Bind.bind, Except.bind] at h
  | ok a => exact ⟨a, rfl, by simpa [Bind.bind, Except.bind] using h⟩

lemma pureE_ok {α : Type} {a b : α}
    (h : (pure a : Except BuildError α) = Except.ok b) : a = b := by
  simpa [pure, Except.pure] using h

/-- Field-level description of a successfully built layer. -/
lemma mkLayer_ok {rand : ℕ → ℕ → ℝ} {i o : ℤ} {a : Option (ℝ → ℝ)} {b bn bna : Bool}
    {c : Option (ℝ → ℝ)} {u : Option (ℝ × ℝ)} {L : Layer}
    (h : mkLayer rand i o a b bn bna c u = Except.ok L) :
    L.inDim = i.toNat ∧ L.outDim = o.toNat ∧ L.rawWeight = rand ∧ L.useBias = b ∧
      L.constraint = c ∧ L.normScale = (fun _ => 1) ∧ L.normShift = (fun _ => 0) ∧
      L.act = a.getD id := by
  unfold mkLayer at h
  by_cases hcond : i ≤ 0 ∨ o ≤ 0
  · rw [if_pos hcond] at h
    exact absurd h (by simp)
  · rw [if_neg hcond] at h
    cases h
    exact ⟨rfl, rfl, rfl, rfl, rfl, rfl, rfl, rfl⟩

/-- A layer build fails exactly on a non-positive dimension. -/
lemma mkLayer_error_iff {rand : ℕ → ℕ → ℝ} {i o : ℤ} {a : Option (ℝ → ℝ)}
    {b bn bna : Bool} {c : Option (ℝ → ℝ)} {u : Option (ℝ × ℝ)} :
    mkLayer rand i o a b bn bna c u = Except.error BuildError.configError
      ↔ (i ≤ 0 ∨ o ≤ 0) := by
  unfold mkLayer
  by_cases hcond : i ≤ 0 ∨ o ≤ 0
  · rw [if_pos hcond]; simp [hcond]
  · rw [if_neg hcond]; simp [hcond]

lemma mapE_cons_ok {α : Type} {f : ℕ → Except BuildError α} {i : ℕ} {is : List ℕ}
    {res : List α} (h : mapE f (i :: is) = Except.ok res) :
    ∃ a rest, f i = Except.ok a ∧ mapE f is = Except.ok rest ∧ res = a :: rest := by
  unfold mapE at h
  cases hfi : f i with
  | error e => rw [hfi] at h; exact absurd h (by simp)
  | ok a =>
    rw [hfi] at h
    cases hrest : mapE f is with
    | error e => rw [hrest] at h; exact absurd h (by simp)
    | ok rest =>
      rw [hrest] at h
      cases h
      exact ⟨a, rest, rfl, rfl, rfl⟩

lemma mapE_ok_get {α : Type} {f : ℕ → Except BuildError α} :
    ∀ {l : List ℕ} {res : List α}, mapE f l = Except.ok res →
      ∀ {k : ℕ} {x : ℕ}, l.get? k = some x →
        ∃ a, f x = Except.ok a ∧ res.get? k = some a := by
  intro l
  induction l with
  | nil => intro res _ k x hk; simp at hk
  | cons i is ih =>
      intro res h k x hk
      rcases mapE_cons_ok h with ⟨a, rest, hfi, hrest, hres⟩
      subst hres
      cases k with
      | zero =>
          simp only [List.get?] at hk
          cases hk
          exact ⟨a, hfi, rfl⟩
      | succ k =>
          simp only [List.get?] at hk
          exact ih hrest hk

lemma getD_of_get? {α : Type} {l : List α} {k : ℕ} {a : α} (h : l.get? k = some a)
    (d : α) : l.getD k d = a := by
  rw [List.getD_eq_getD_get?, h]
  rfl

lemma picnn1_mkStep_ok {r : ℕ → ℕ → ℕ → ℕ → ℝ} {ic pc : List ℤ} {opts : Opts}
    {i : ℕ} {t : Layer × Layer × Layer × Layer × Layer}
    (h : PICNN1.mkStep r ic pc opts i = Except.ok t) :
    ∃ ni ni1 mi n0,
      expectIdx ic i = Except.ok ni ∧
      expectIdx ic (i + 1) = Except.ok ni1 ∧
      expectIdx pc i = Except.ok mi ∧
      expectIdx ic 0 = Except.ok n0 ∧
      mkLayer (r 0 i) ni ni1 none false opts.ABLayersBatchNormalize false
        (some Real.exp) (some opts.uniformInitRange) = Except.ok t.1 ∧
      mkLayer (r 1 i) mi ni (some opts.floorF) true opts.UVWLayersBatchNormalize
        opts.UVWLayersBatchNormAffine none none = Except.ok t.2.1 ∧
      mkLayer (r 2 i) n0 ni1 none false opts.ABLayersBatchNormalize true none none
        = Except.ok t.2.2.1 ∧
      mkLayer (r 3 i) mi n0 none true opts.UVWLayersBatchNormalize
        opts.UVWLayersBatchNormAffine none none = Except.ok t.2.2.2.1 ∧
      mkLayer (r 4 i) mi ni1 none true opts.UVWLayersBatchNormalize
        opts.UVWLayersBatchNormAffine none none = Except.ok t.2.2.2.2 := by
  unfold PICNN1.mkStep at h
  rcases bindE_ok h with ⟨ni, h1, h⟩
  rcases bindE_ok h with ⟨ni1, h2, h⟩
  rcases bindE_ok h with ⟨a, hla, h⟩
  rcases bindE_ok h with ⟨mi, h3, h⟩
  rcases bindE_ok h with ⟨ni', h4, h⟩
  rcases bindE_ok h with ⟨u, hlu, h⟩
  rcases bindE_ok h with ⟨n0, h5, h⟩
  rcases bindE_ok h with ⟨ni1', h6, h⟩
  rcases bindE_ok h with ⟨b, hlb, h⟩
  rcases bindE_ok h with ⟨mi', h7, h⟩
  rcases bindE_ok h with ⟨n0', h8, h⟩
  rcases bindE_ok h with ⟨v, hlv, h⟩
  rcases bindE_ok h with ⟨mi'', h9, h⟩
  rcases bindE_ok h with ⟨ni1'', h10, h⟩
  rcases bindE_ok h with ⟨w, hlw, h⟩
  have ht := pureE_ok h
  subst ht
  have e4 : ni = ni' := Except.ok.inj (h1.symm.trans h4)
  have e6 : ni1 = ni1' := Except.ok.inj (h2.symm.trans h6)
  have e7 : mi = mi' := Except.ok.inj (h3.symm.trans h7)
  have e8 : n0 = n0' := Except.ok.inj (h5.symm.trans h8)
  have e9 : mi = mi'' := Except.ok.inj (h3.symm.trans h9)
  have e10 : ni1 = ni1'' := Except.ok.inj (h2.symm.trans h10)
  subst e4; subst e6; subst e7; subst e8; subst e9; subst e10
  exact ⟨ni, ni1, mi, n0, h1, h2, h3, h5, hla, hlu, hlb, hlv, hlw⟩

lemma picnn1_make_ok {r : ℕ → ℕ → ℕ → ℕ → ℝ} {ic pc : List ℤ}
    {ha oa pha poa : Option (ℝ → ℝ)} {opts : Opts} {net : PICNN1}
    (h : PICNN1.make r ic pc ha oa pha poa opts = Except.ok net) :
    net.steps = ic.length - 1 ∧
    (∃ c0, expectIdx ic 0 = Except.ok c0 ∧ mkBatchNorm1d c0 = Except.ok net.inputNormDim) ∧
    FFN.fromConfig (r 6) pc (pha.getD elu) poa opts.paramNetBatchNormalize
      = Except.ok net.L ∧
    ∀ k, k < ic.length - 1 →
      ∃ t, PICNN1.mkStep r ic pc opts k = Except.ok t ∧
        net.A k = t.1 ∧ net.U k = t.2.1 ∧ net.B k = t.2.2.1 ∧
        net.V k = t.2.2.2.1 ∧ net.W k = t.2.2.2.2 := by
  unfold PICNN1.make at h
  rcases bindE_ok h with ⟨c0, h1, h⟩
  rcases bindE_ok h with ⟨nd, h2, h⟩
  rcases bindE_ok h with ⟨ffn, h3, h⟩
  rcases bindE_ok h with ⟨sl, h4, h⟩
  have hnet := pureE_ok h
  subst hnet
  refine ⟨rfl, ⟨c0, h1, h2⟩, h3, ?_⟩
  intro k hk
  have hget : (List.range (ic.length - 1)).get? k = some k := List.get?_range hk
  rcases mapE_ok_get h4 hget with ⟨t, hstep, hres⟩
  have hgd := getD_of_get? hres (dfltLayer, dfltLayer, dfltLayer, dfltLayer, dfltLayer)
  refine ⟨t, hstep, ?_, ?_, ?_, ?_, ?_⟩
  · show (sl.getD k (dfltLayer, dfltLayer, dfltLayer, dfltLayer, dfltLayer)).1 = t.1
    rw [hgd]
  · show (sl.getD k (dfltLayer, dfltLayer, dfltLayer, dfltLayer, dfltLayer)).2.1 = t.2.1
    rw [hgd]
  · show (sl.getD k (dfltLayer, dfltLayer, dfltLayer, dfltLayer, dfltLayer)).2.2.1 = t.2.2.1
    rw [hgd]
  · show (sl.getD k (dfltLayer, dfltLayer, dfltLayer, dfltLayer, dfltLayer)).2.2.2.1 = t.2.2.2.1
    rw [hgd]
  · show (sl.getD k (dfltLayer, dfltLayer, dfltLayer, dfltLayer, dfltLayer)).2.2.2.2 = t.2.2.2.2
    rw [hgd]

lemma picnn2_mkStep_ok {r : ℕ → ℕ → ℕ → ℕ → ℝ} {ic pc : List ℤ} {opts : Opts}
    {i : ℕ} {t : Layer × Layer × Layer × Layer × Layer}
    (h : PICNN2.mkStep r ic pc opts i = Except.ok t) :
    ∃ ni ni1 m n0,
      expectIdx ic i = Except.ok ni ∧
      expectIdx ic (i + 1) = Except.ok ni1 ∧
      expectLast pc = Except.ok m ∧
      expectIdx ic 0 = Except.ok n0 ∧
      mkLayer (r 0 i) ni ni1 none false opts.ABLayersBatchNormalize false
        (some Real.exp) (some opts.uniformInitRange) = Except.ok t.1 ∧
      mkLayer (r 1 i) m ni (some opts.floorF) true opts.UVWLayersBatchNormalize
        opts.UVWLayersBatchNormAffine none none = Except.ok t.2.1 ∧
      mkLayer (r 2 i) n0 ni1 none false opts.ABLayersBatchNormalize true none none
        = Except.ok t.2.2.1 ∧
      mkLayer (r 3 i) m n0 none true opts.UVWLayersBatchNormalize
        opts.UVWLayersBatchNormAffine none none = Except.ok t.2.2.2.1 ∧
      mkLayer (r 4 i) m ni1 none true opts.UVWLayersBatchNormalize
        opts.UVWLayersBatchNormAffine none none = Except.ok t.2.2.2.2 := by
  unfold PICNN2.mkStep at h
  rcases bindE_ok h with ⟨ni, h1, h⟩
  rcases bindE_ok h with ⟨ni1, h2, h⟩
  rcases bindE_ok h with ⟨a, hla, h⟩
  rcases bindE_ok h with ⟨m, h3, h⟩
  rcases bindE_ok h with ⟨ni', h4, h⟩
  rcases bindE_ok h with ⟨u, hlu, h⟩
  rcases bindE_ok h with ⟨n0, h5, h⟩
  rcases bindE_ok h with ⟨ni1', h6, h⟩
  rcases bindE_ok h with ⟨b, hlb, h⟩
  rcases bindE_ok h with ⟨m', h7, h⟩
  rcases bindE_ok h with ⟨n0', h8, h⟩
  rcases bindE_ok h with ⟨v, hlv, h⟩
  rcases bindE_ok h with ⟨m'', h9, h⟩
  rcases bindE_ok h with ⟨ni1'', h10, h⟩
  rcases bindE_ok h with ⟨w, hlw, h⟩
  have ht := pureE_ok h
  subst ht
  have e4 : ni = ni' := Except.ok.inj (h1.symm.trans h4)
  have e6 : ni1 = ni1' := Except.ok.inj (h2.symm.trans h6)
  have e7 : m = m' := Except.ok.inj (h3.symm.trans h7)
  have e8 : n0 = n0' := Except.ok.inj (h5.symm.trans h8)
  have e9 : m = m'' := Except.ok.inj (h3.symm.trans h9)
  have e10 : ni1 = ni1'' := Except.ok.inj (h2.symm.trans h10)
  subst e4; subst e6; subst e7; subst e8; subst e9; subst e10
  exact ⟨ni, ni1, m, n0, h1, h2, h3, h5, hla, hlu, hlb, hlv, hlw⟩

lemma picnn2_make_ok {r : ℕ → ℕ → ℕ → ℕ → ℝ} {ic pc : List ℤ}
    {ha oa pha poa : Option (ℝ → ℝ)} {opts : Opts} {net : PICNN2}
    (h : PICNN2.make r ic pc ha oa pha poa opts = Except.ok net) :
    net.steps = ic.length - 1 ∧
    (∃ c0, expectIdx ic 0 = Except.ok c0 ∧ mkBatchNorm1d c0 = Except.ok net.inputNormDim) ∧
    FFN.fromConfig (r 6) pc (pha.getD elu) poa opts.paramNetBatchNormalize
      = Except.ok net.L ∧
    ∀ k, k < ic.length - 1 →
      ∃ t, PICNN2.mkStep r ic pc opts k = Except.ok t ∧
        net.A k = t.1 ∧ net.U k = t.2.1 ∧ net.B k = t.2.2.1 ∧
        net.V k = t.2.2.2.1 ∧ net.W k = t.2.2.2.2 := by
  unfold PICNN2.make at h
  rcases bindE_ok h with ⟨c0, h1, h⟩
  rcases bindE_ok h with ⟨nd, h2, h⟩
  rcases bindE_ok h with ⟨ffn, h3, h⟩
  rcases bindE_ok h with ⟨sl, h4, h⟩
  have hnet := pureE_ok h
  subst hnet
  refine ⟨rfl, ⟨c0, h1, h2⟩, h3, ?_⟩
  intro k hk
  have hget : (List.range (ic.length - 1)).get? k = some k := List.get?_range hk
  rcases mapE_ok_get h4 hget with ⟨t, hstep, hres⟩
  have hgd := getD_of_get? hres (dfltLayer, dfltLayer, dfltLayer, dfltLayer, dfltLayer)
  refine ⟨t, hstep, ?_, ?_, ?_, ?_, ?_⟩
  · show (sl.getD k (dfltLayer, dfltLayer, dfltLayer, dfltLayer, dfltLayer)).1 = t.1
    rw [hgd]
  · show (sl.getD k (dfltLayer, dfltLayer, dfltLayer, dfltLayer, dfltLayer)).2.1 = t.2.1
    rw [hgd]
  · show (sl.getD k (dfltLayer, dfltLayer, dfltLayer, dfltLayer, dfltLayer)).2.2.1 = t.2.2.1
    rw [hgd]
  · show (sl.getD k (dfltLayer, dfltLayer, dfltLayer, dfltLayer, dfltLayer)).2.2.2.1 = t.2.2.2.1
    rw [hgd]
  · show (sl.getD k (dfltLayer, dfltLayer, dfltLayer, dfltLayer, dfltLayer)).2.2.2.2 = t.2.2.2.2
    rw [hgd]

lemma picnn3_mkStep_ok {r : ℕ → ℕ → ℕ → ℕ → ℝ} {ic pc : List ℤ} {opts : Opts}
    {i : ℕ} {t : Layer × Layer × Layer × Layer × Layer × Layer}
    (h : PICNN3.mkStep r ic pc opts i = Except.ok t) :
    ∃ ni ni1 m n0,
      expectIdx ic i = Except.ok ni ∧
      expectIdx ic (i + 1) = Except.ok ni1 ∧
      expectLast pc = Except.ok m ∧
      expectIdx ic 0 = Except.ok n0 ∧
      mkLayer (r 0 i) ni ni1 none false opts.ABLayersBatchNormalize false
        (some Real.exp) (some opts.uniformInitRange) = Except.ok t.1 ∧
      mkLayer (r 1 i) m ni (some opts.floorF) true opts.UVWLayersBatchNormalize
        opts.UVWLayersBatchNormAffine none none = Except.ok t.2.1 ∧
      mkLayer (r 2 i) n0 ni1 none false opts.ABLayersBatchNormalize true none none
        = Except.ok t.2.2.1 ∧
      mkLayer (r 3 i) m n0 none true opts.UVWLayersBatchNormalize
        opts.UVWLayersBatchNormAffine none none = Except.ok t.2.2.2.1 ∧
      mkLayer (r 4 i) m ni1 none true opts.UVWLayersBatchNormalize
        opts.UVWLayersBatchNormAffine none none = Except.ok t.2.2.2.2.1 ∧
      mkLayer (r 5 i) m ni1 (some sigmoid) true true false none none
        = Except.ok t.2.2.2.2.2 := by
  unfold PICNN3.mkStep at h
  rcases bindE_ok h with ⟨ni, h1, h⟩
  rcases bindE_ok h with ⟨ni1, h2, h⟩
  rcases bindE_ok h with ⟨a, hla, h⟩
  rcases bindE_ok h with ⟨m, h3, h⟩
  rcases bindE_ok h with ⟨ni', h4, h⟩
  rcases bindE_ok h with ⟨u, hlu, h⟩
  rcases bindE_ok h with ⟨n0, h5, h⟩
  rcases bindE_ok h with ⟨ni1', h6, h⟩
  rcases bindE_ok h with ⟨b, hlb, h⟩
  rcases bindE_ok h with ⟨m', h7, h⟩
  rcases bindE_ok h with ⟨n0', h8, h⟩
  rcases bindE_ok h with ⟨v, hlv, h⟩
  rcases bindE_ok h with ⟨m'', h9, h⟩
  rcases bindE_ok h with ⟨ni1'', h10, h⟩
  rcases bindE_ok h with ⟨w, hlw, h⟩
  rcases bindE_ok h with ⟨m3, h11, h⟩
  rcases bindE_ok h with ⟨ni13, h12, h⟩
  rcases bindE_ok h with ⟨y, hly, h⟩
  have ht := pureE_ok h
  subst ht
  have e4 : ni = ni' := Except.ok.inj (h1.symm.trans h4)
  have e6 : ni1 = ni1' := Except.ok.inj (h2.symm.trans h6)
  have e7 : m = m' := Except.ok.inj (h3.symm.trans h7)
  have e8 : n0 = n0' := Except.ok.inj (h5.symm.trans h8)
  have e9 : m = m'' := Except.ok.inj (h3.symm.trans h9)
  have e10 : ni1 = ni1'' := Except.ok.inj (h2.symm.trans h10)
  have e11 : m = m3 := Except.ok.inj (h3.symm.trans h11)
  have e12 : ni1 = ni13 := Except.ok.inj (h2.symm.trans h12)
  subst e4; subst e6; subst e7; subst e8; subst e9; subst e10; subst e11; subst e12
  exact ⟨ni, ni1, m, n0, h1, h2, h3, h5, hla, hlu, hlb, hlv, hlw, hly⟩

lemma picnn3_make_ok {r : ℕ → ℕ → ℕ → ℕ → ℝ} {ic pc : List ℤ}
    {oa pha poa : Option (ℝ → ℝ)} {opts : Opts} {net : PICNN3}
    (h : PICNN3.make r ic pc oa pha poa opts = Except.ok net) :
    net.steps = ic.length - 1 ∧
    (∃ c0, expectIdx ic 0 = Except.ok c0 ∧ mkBatchNorm1d c0 = Except.ok net.inputNormDim) ∧
    FFN.fromConfig (r 6) pc (pha.getD elu) poa opts.paramNetBatchNormalize
      = Except.ok net.L ∧
    ∀ k, k < ic.length - 1 →
      ∃ t, PICNN3.mkStep r ic pc opts k = Except.ok t ∧
        net.A k = t.1 ∧ net.U k = t.2.1 ∧ net.B k = t.2.2.1 ∧
        net.V k = t.2.2.2.1 ∧ net.W k = t.2.2.2.2.1 ∧ net.Y k = t.2.2.2.2.2 := by
  unfold PICNN3.make at h
  rcases bindE_ok h with ⟨c0, h1, h⟩
  rcases bindE_ok h with ⟨nd, h2, h⟩
  rcases bindE_ok h with ⟨ffn, h3, h⟩
  rcases bindE_ok h with ⟨sl, h4, h⟩
  have hnet := pureE_ok h
  subst hnet
  refine ⟨rfl, ⟨c0, h1, h2⟩, h3, ?_⟩
  intro k hk
  have hget : (List.range (ic.length - 1)).get? k = some k := List.get?_range hk
  rcases mapE_ok_get h4 hget with ⟨t, hstep, hres⟩
  have hgd := getD_of_get? hres
    (dfltLayer, dfltLayer, dfltLayer, dfltLayer, dfltLayer, dfltLayer)
  refine ⟨t, hstep, ?_, ?_, ?_, ?_, ?_, ?_⟩
  · show (sl.getD k (dfltLayer, dfltLayer, dfltLayer, dfltLayer, dfltLayer, dfltLayer)).1 = t.1
    rw [hgd]
  · show (sl.getD k (dfltLayer, dfltLayer, dfltLayer, dfltLayer, dfltLayer, dfltLayer)).2.1 = t.2.1
    rw [hgd]
  · show (sl.getD k (dfltLayer, dfltLayer, dfltLayer, dfltLayer, dfltLayer, dfltLayer)).2.2.1 = t.2.2.1
    rw [hgd]
  · show (sl.getD k (dfltLayer, dfltLayer, dfltLayer, dfltLayer, dfltLayer, dfltLayer)).2.2.2.1 = t.2.2.2.1
    rw [hgd]
  · show (sl.getD k (dfltLayer, dfltLayer, dfltLayer, dfltLayer, dfltLayer, dfltLayer)).2.2.2.2.1 = t.2.2.2.2.1
    rw [hgd]
  · show (sl.getD k (dfltLayer, dfltLayer, dfltLayer, dfltLayer, dfltLayer, dfltLayer)).2.2.2.2.2 = t.2.2.2.2.2
    rw [hgd]

/-! ### Shared concrete objects for witnesses and counterexamples -/

/-- A deterministic stand-in for the random initialization oracle. -/
def r0 : ℕ → ℕ → ℕ → ℕ → ℝ := fun _ _ _ _ => 0

/-- Unwraps a successful `Except`, with a default. -/
def getOk {α : Type} (e : Except BuildError α) (d : α) : α :=
  match e with
  | Except.ok a => a
  | Except.error _ => d

/-- `true` exactly on successful results. -/
def isOkE {α : Type} : Except BuildError α → Bool
  | Except.ok _ => true
  | Except.error _ => false

def dfltPICNN1 : PICNN1 :=
  { steps := 0, inputNormDim := 0, inputNormScale := fun _ => 1
    inputNormShift := fun _ => 0, activations := fun _ => id, floorF := id
    L := ⟨[]⟩, A := fun _ => dfltLayer, U := fun _ => dfltLayer
    B := fun _ => dfltLayer, V := fun _ => dfltLayer, W := fun _ => dfltLayer }

def dfltPICNN2 : PICNN2 :=
  { steps := 0, inputNormDim := 0, inputNormScale := fun _ => 1
    inputNormShift := fun _ => 0, activations := fun _ => id, floorF := id
    L := ⟨[]⟩, A := fun _ => dfltLayer, U := fun _ => dfltLayer
    B := fun _ => dfltLayer, V := fun _ => dfltLayer, W := fun _ => dfltLayer }

def dfltPICNN3 : PICNN3 :=
  { steps := 0, inputNormDim := 0, inputNormScale := fun _ => 1
    inputNormShift := fun _ => 0, floorF := id
    L := ⟨[]⟩, A := fun _ => dfltLayer, U := fun _ => dfltLayer
    B := fun _ => dfltLayer, V := fun _ => dfltLayer, W := fun _ => dfltLayer
    Y := fun _ => dfltLayer }

/-- The all-zeros vector. -/
def vZero : Vec := fun _ => 0

/-- The all-ones vector. -/
def vOne : Vec := fun _ => 1

/-! ### C3 -/

/-- C3: `PICNN1.forward(x_0, y_0)` computes exactly the recurrence
`x_{k+1} = g_k(A_k(x_k ⊙ U_k(y_k)) + B_k(x_0 ⊙ V_k(y_k)) + W_k(y_k))` with
`y_{k+1} = L_k(y_k)` (the FeedForwardStack invoked step-by-step, once per `k`),
using the raw (unnormalized) `x_0` in the `B_k` term at every step, and returns
`x_{N+1}`; in particular the result does not depend on the input-normalization
statistics at all. -/
theorem picnn1_forward_matches_recurrence :
    ∀ (net : PICNN1) (x y : Vec),
      net.forward x y = picnn1SpecX net x y net.steps ∧
      ∀ ns nsh : ℕ → ℝ,
        ({ net with inputNormScale := ns, inputNormShift := nsh } : PICNN1).forward x y
          = net.forward x y := by
  intro net x y
  exact ⟨picnn1_forward_eq_spec net x y, fun ns nsh => rfl⟩

/-! ### C5 -/

/-- C5: `PICNN3.celu(u, w)` (at the construction constant `eps = 1e-2 = 1/100`)
equals `relu(u) − relu((1 − exp(−relu(−u))) / (w + eps)) · (w + eps)`,
elementwise on tensors. -/
theorem celu_matches_spec_formula :
    ∀ (u w : Vec) (j : ℕ),
      PICNN3.celu (u j) (w j) celuEps
        = relu (u j)
          - relu ((1 - Real.exp (-(relu (-(u j))))) / (w j + 1 / 100)) * (w j + 1 / 100) := by
  intro u w j
  rw [celu_def]
  rfl

/-! ### C6 -/

lemma effWeight_exp_pos (L : Layer) (h : L.constraint = some Real.exp) (j i : ℕ) :
    0 < L.effWeight j i := by
  unfold Layer.effWeight
  rw [h]
  exact Real.exp_pos _

/-- C6: after constructing any of the three variants, every entry of the
effective weight matrix of every `A_k` is strictly positive: the constraint
function is `exp`, so the effective weights are `exp` of the raw parameters —
and this positivity is preserved under arbitrary updates of the raw
parameters. -/
theorem aWeights_strictly_positive :
    (∀ r ic pc ha oa pha poa opts (net : PICNN1),
      PICNN1.make r ic pc ha oa pha poa opts = Except.ok net →
      ∀ k, k < net.steps →
        (net.A k).constraint = some Real.exp ∧
        (∀ j i, 0 < (net.A k).effWeight j i) ∧
        ∀ rw : ℕ → ℕ → ℝ, ∀ j i,
          0 < ({ net.A k with rawWeight := rw } : Layer).effWeight j i) ∧
    (∀ r ic pc ha oa pha poa opts (net : PICNN2),
      PICNN2.make r ic pc ha oa pha poa opts = Except.ok net →
      ∀ k, k < net.steps →
        (net.A k).constraint = some Real.exp ∧
        (∀ j i, 0 < (net.A k).effWeight j i) ∧
        ∀ rw : ℕ → ℕ → ℝ, ∀ j i,
          0 < ({ net.A k with rawWeight := rw } : Layer).effWeight j i) ∧
    (∀ r ic pc oa pha poa opts (net : PICNN3),
      PICNN3.make r ic pc oa pha poa opts = Except.ok net →
      ∀ k, k < net.steps →
        (net.A k).constraint = some Real.exp ∧
        (∀ j i, 0 < (net.A k).effWeight j i) ∧
        ∀ rw : ℕ → ℕ → ℝ, ∀ j i,
          0 < ({ net.A k with rawWeight := rw } : Layer).effWeight j i) := by
  refine ⟨?_, ?_, ?_⟩
  · intro r ic pc ha oa pha poa opts net h k hk
    rcases picnn1_make_ok h with ⟨hsteps, -, -, hstep⟩
    rcases hstep k (by rw [hsteps] at hk; exact hk) with ⟨t, hmk, hA, -, -, -, -⟩
    rcases picnn1_mkStep_ok hmk with ⟨ni, ni1, mi, n0, -, -, -, -, hla, -, -, -, -⟩
    have hc : (net.A k).constraint = some Real.exp := by
      rw [hA]; exact (mkLayer_ok hla).2.2.2.2.1
    exact ⟨hc, fun j i => effWeight_exp_pos _ hc j i,
      fun rw j i => effWeight_exp_pos _
        (show ({ net.A k with rawWeight := rw } : Layer).constraint
            = some Real.exp from hc) j i⟩
  · intro r ic pc ha oa pha poa opts net h k hk
    rcases picnn2_make_ok h with ⟨hsteps, -, -, hstep⟩
    rcases hstep k (by rw [hsteps] at hk; exact hk) with ⟨t, hmk, hA, -, -, -, -⟩
    rcases picnn2_mkStep_ok hmk with ⟨ni, ni1, m, n0, -, -, -, -, hla, -, -, -, -⟩
    have hc : (net.A k).constraint = some Real.exp := by
      rw [hA]; exact (mkLayer_ok hla).2.2.2.2.1
    exact ⟨hc, fun j i => effWeight_exp_pos _ hc j i,
      fun rw j i => effWeight_exp_pos _
        (show ({ net.A k with rawWeight := rw } : Layer).constraint
            = some Real.exp from hc) j i⟩
  · intro r ic pc oa pha poa opts net h k hk
    rcases picnn3_make_ok h with ⟨hsteps, -, -, hstep⟩
    rcases hstep k (by rw [hsteps] at hk; exact hk) with ⟨t, hmk, hA, -, -, -, -, -⟩
    rcases picnn3_mkStep_ok hmk with ⟨ni, ni1, m, n0, -, -, -, -, hla, -, -, -, -, -⟩
    have hc : (net.A k).constraint = some Real.exp := by
      rw [hA]; exact (mkLayer_ok hla).2.2.2.2.1
    exact ⟨hc, fun j i => effWeight_exp_pos _ hc j i,
      fun rw j i => effWeight_exp_pos _
        (show ({ net.A k with rawWeight := rw } : Layer).constraint
            = some Real.exp from hc) j i⟩

/-! ### C10 -/

/-- C10: `PICNN3`'s construction and forward output are independent of the
`output_activation` argument: it is received and defaulted but never stored,
and `celu(·, Y_k(y*))` is the activation at every step, including the final
one. -/
theorem picnn3_output_activation_unused :
    ∀ (r : ℕ → ℕ → ℕ → ℕ → ℝ) (ic pc : List ℤ)
      (oa oa' pha poa : Option (ℝ → ℝ)) (opts : Opts),
      PICNN3.make r ic pc oa pha poa opts = PICNN3.make r ic pc oa' pha poa opts ∧
      ∀ x y : Vec,
        (PICNN3.make r ic pc oa pha poa opts).map (fun net => net.forward x y)
          = (PICNN3.make r ic pc oa' pha poa opts).map (fun net => net.forward x y) := by
  intro r ic pc oa oa' pha poa opts
  have h : PICNN3.make r ic pc oa pha poa opts = PICNN3.make r ic pc oa' pha poa opts := rfl
  exact ⟨h, fun x y => by rw [h]⟩

/-! ### C4 -/

/-- C4: `PICNN2.forward` invokes the FeedForwardStack exactly once, fully, on
`y_0`, producing a single embedding `y* = L(y_0)` consumed identically at every
step (the spec recurrence with fixed `y*`), and every `U_k`, `V_k`, `W_k` built
by the constructor has input dimension `param_config[-1]`. -/
theorem picnn2_single_full_embedding :
    (∀ (net : PICNN2) (x y : Vec),
      net.forward x y = picnn2SpecX net x y net.steps) ∧
    (∀ r ic pc ha oa pha poa opts (net : PICNN2),
      PICNN2.make r ic pc ha oa pha poa opts = Except.ok net →
      ∀ k, k < net.steps →
        ∃ m, expectLast pc = Except.ok m ∧
          (net.U k).inDim = m.toNat ∧ (net.V k).inDim = m.toNat ∧
          (net.W k).inDim = m.toNat) := by
  constructor
  · exact fun net x y => picnn2_forward_eq_spec net x y
  · intro r ic pc ha oa pha poa opts net h k hk
    rcases picnn2_make_ok h with ⟨hsteps, -, -, hstep⟩
    rcases hstep k (by rw [hsteps] at hk; exact hk) with ⟨t, hmk, -, hU, -, hV, hW⟩
    rcases picnn2_mkStep_ok hmk with ⟨ni, ni1, m, n0, -, -, hm, -, -, hlu, -, hlv, hlw⟩
    refine ⟨m, hm, ?_, ?_, ?_⟩
    · rw [hU]; exact (mkLayer_ok hlu).1
    · rw [hV]; exact (mkLayer_ok hlv).1
    · rw [hW]; exact (mkLayer_ok hlw).1

/-! ### C9 -/

lemma sigmoid_pos (x : ℝ) : 0 < sigmoid x := by
  unfold sigmoid
  have h : 0 < 1 + Real.exp (-x) := by
    have := Real.exp_pos (-x); linarith
  exact div_pos one_pos h

lemma sigmoid_lt_one (x : ℝ) : sigmoid x < 1 := by
  unfold sigmoid
  have h : 0 < 1 + Real.exp (-x) := by
    have := Real.exp_pos (-x); linarith
  rw [div_lt_one h]
  have := Real.exp_pos (-x)
  linarith

lemma Layer.apply_of_act (L : Layer) {f : ℝ → ℝ} (h : L.act = f) (x : Vec) (j : ℕ) :
    L.apply x j = f (L.normScale j * L.linear x j + L.normShift j) := by
  unfold Layer.apply
  rw [h]

/-- C9: in `PICNN3.forward`, the gate values `Y_k(y*)` fed to `celu` as its
weight argument lie strictly in `(0, 1)` (every constructed `Y_k` ends in a
logistic sigmoid), so the divisor `w + eps` inside `celu` lies strictly
between `eps = 1/100` and `1 + eps`, never at or below `eps`. -/
theorem picnn3_gate_strictly_in_unit_interval :
    (∀ r ic pc oa pha poa opts (net : PICNN3),
      PICNN3.make r ic pc oa pha poa opts = Except.ok net →
      ∀ k, k < net.steps → (net.Y k).act = sigmoid) ∧
    (∀ (net : PICNN3) (k : ℕ) (params : Vec) (j : ℕ),
      (net.Y k).act = sigmoid →
      0 < (net.Y k).apply (net.L.apply params) j ∧
      (net.Y k).apply (net.L.apply params) j < 1 ∧
      celuEps < (net.Y k).apply (net.L.apply params) j + celuEps ∧
      (net.Y k).apply (net.L.apply params) j + celuEps < 1 + celuEps) := by
  constructor
  · intro r ic pc oa pha poa opts net h k hk
    rcases picnn3_make_ok h with ⟨hsteps, -, -, hstep⟩
    rcases hstep k (by rw [hsteps] at hk; exact hk) with ⟨t, hmk, -, -, -, -, -, hY⟩
    rcases picnn3_mkStep_ok hmk with ⟨ni, ni1, m, n0, -, -, -, -, -, -, -, -, -, hly⟩
    rw [hY]
    exact (mkLayer_ok hly).2.2.2.2.2.2.2
  · intro net k params j h
    rw [(net.Y k).apply_of_act h]
    have h1 := sigmoid_pos ((net.Y k).normScale j *
      (net.Y k).linear (net.L.apply params) j + (net.Y k).normShift j)
    have h2 := sigmoid_lt_one ((net.Y k).normScale j *
      (net.Y k).linear (net.L.apply params) j + (net.Y k).normShift j)
    exact ⟨h1, h2, by linarith, by linarith⟩

/-! ### C1 -/

/-- C1: for every variant, fixed context input `y_0`, state inputs
`x_0^a, x_0^b` and `t ∈ [0,1]`,
`forward(t·x_0^a + (1−t)·x_0^b, y_0) ≤ t·forward(x_0^a, y_0) + (1−t)·forward(x_0^b, y_0)`
elementwise, for any weight values satisfying the construction constraints:
`A_k` layers activation-free with non-negative effective weights and
normalization scales (`exp`-constrained weights and shift-free batch norm give
these), rectifying (non-negative-valued) `U_k` floor activations, and
convex-increasing step activations (for `PICNN3`, `celu` is convex-increasing
unconditionally). -/
theorem picnn_forward_convex_in_state :
    (∀ (net : PICNN1) (y xa xb : Vec) (t : ℝ),
      (∀ k, k < net.steps → (net.A k).act = id) →
      (∀ k, k < net.steps → (net.B k).act = id) →
      (∀ k, k < net.steps → ∀ j, 0 ≤ (net.A k).normScale j) →
      (∀ k, k < net.steps → ∀ j i, 0 ≤ (net.A k).effWeight j i) →
      (∀ k, k < net.steps → ∀ s, 0 ≤ (net.U k).act s) →
      (∀ k, k < net.steps →
        ConvexFn (net.activations k) ∧ Monotone (net.activations k)) →
      0 ≤ t → t ≤ 1 →
      ∀ j, net.forward (mix t xa xb) y j
        ≤ t * net.forward xa y j + (1 - t) * net.forward xb y j) ∧
    (∀ (net : PICNN2) (y xa xb : Vec) (t : ℝ),
      (∀ k, k < net.steps → (net.A k).act = id) →
      (∀ k, k < net.steps → (net.B k).act = id) →
      (∀ k, k < net.steps → ∀ j, 0 ≤ (net.A k).normScale j) →
      (∀ k, k < net.steps → ∀ j i, 0 ≤ (net.A k).effWeight j i) →
      (∀ k, k < net.steps → ∀ s, 0 ≤ (net.U k).act s) →
      (∀ k, k < net.steps →
        ConvexFn (net.activations k) ∧ Monotone (net.activations k)) →
      0 ≤ t → t ≤ 1 →
      ∀ j, net.forward (mix t xa xb) y j
        ≤ t * net.forward xa y j + (1 - t) * net.forward xb y j) ∧
    (∀ (net : PICNN3) (y xa xb : Vec) (t : ℝ),
      (∀ k, k < net.steps → (net.A k).act = id) →
      (∀ k, k < net.steps → (net.B k).act = id) →
      (∀ k, k < net.steps → ∀ j, 0 ≤ (net.A k).normScale j) →
      (∀ k, k < net.steps → ∀ j i, 0 ≤ (net.A k).effWeight j i) →
      (∀ k, k < net.steps → ∀ s, 0 ≤ (net.U k).act s) →
      0 ≤ t → t ≤ 1 →
      ∀ j, net.forward (mix t xa xb) y j
        ≤ t * net.forward xa y j + (1 - t) * net.forward xb y j) := by
  refine ⟨?_, ?_, ?_⟩
  · intro net y xa xb t hAact hBact hAs hAw hUact hg ht0 ht1 j
    rw [picnn1_forward_eq_spec net (mix t xa xb) y, picnn1_forward_eq_spec net xa y,
      picnn1_forward_eq_spec net xb y, picnn1SpecX_eq_runSteps,
      picnn1SpecX_eq_runSteps, picnn1SpecX_eq_runSteps]
    exact runSteps_convex (net.stepData y) net.steps hAact hBact hAs hAw
      (fun k hk i => Layer.apply_nonneg _ (hUact k hk) _ i)
      (fun k hk j' => hg k hk) xa xb t ht0 ht1 j
  · intro net y xa xb t hAact hBact hAs hAw hUact hg ht0 ht1 j
    rw [picnn2_forward_eq_spec net (mix t xa xb) y, picnn2_forward_eq_spec net xa y,
      picnn2_forward_eq_spec net xb y, picnn2SpecX_eq_runSteps,
      picnn2SpecX_eq_runSteps, picnn2SpecX_eq_runSteps]
    exact runSteps_convex (net.stepData y) net.steps hAact hBact hAs hAw
      (fun k hk i => Layer.apply_nonneg _ (hUact k hk) _ i)
      (fun k hk j' => hg k hk) xa xb t ht0 ht1 j
  · intro net y xa xb t hAact hBact hAs hAw hUact ht0 ht1 j
    rw [picnn3_forward_eq_spec net (mix t xa xb) y, picnn3_forward_eq_spec net xa y,
      picnn3_forward_eq_spec net xb y, picnn3X_eq_runSteps,
      picnn3X_eq_runSteps, picnn3X_eq_runSteps]
    exact runSteps_convex (net.stepData y) net.steps hAact hBact hAs hAw
      (fun k hk i => Layer.apply_nonneg _ (hUact k hk) _ i)
      (fun k hk j' =>
        celu_convexFn_monotone ((net.Y k).apply (net.L.apply y) j') celuEps)
      xa xb t ht0 ht1 j

/-! ### C2 -/

lemma id_convexFn : ConvexFn (id : ℝ → ℝ) := fun _ _ _ _ _ => le_of_eq rfl

/-- An `A`-type layer: no bias, `exp`-constrained weights (raw weight `0`),
identity activation, trivial normalization. -/
noncomputable def cLayerA : Layer :=
  { inDim := 1, outDim := 1, rawWeight := fun _ _ => 0, biasVal := fun _ => 0
    useBias := false, constraint := some Real.exp, normScale := fun _ => 1
    normShift := fun _ => 0, act := id }

/-- A `U`-type layer: rectifying activation, zero weights and bias. -/
def cLayerU : Layer :=
  { inDim := 1, outDim := 1, rawWeight := fun _ _ => 0, biasVal := fun _ => 0
    useBias := true, constraint := none, normScale := fun _ => 1
    normShift := fun _ => 0, act := relu }

/-- A `B`-type layer with effective weight `1` (no bias, unconstrained). -/
def cLayerB1 : Layer :=
  { inDim := 1, outDim := 1, rawWeight := fun _ _ => 1, biasVal := fun _ => 0
    useBias := false, constraint := none, normScale := fun _ => 1
    normShift := fun _ => 0, act := id }

/-- A `B`-type layer with effective weight `0`. -/
def cLayerB0 : Layer :=
  { inDim := 1, outDim := 1, rawWeight := fun _ _ => 0, biasVal := fun _ => 0
    useBias := false, constraint := none, normScale := fun _ => 1
    normShift := fun _ => 0, act := id }

/-- A `V`-type layer with constant output `-1` (zero weights, bias `-1`). -/
def cLayerVneg : Layer :=
  { inDim := 1, outDim := 1, rawWeight := fun _ _ => 0, biasVal := fun _ => -1
    useBias := true, constraint := none, normScale := fun _ => 1
    normShift := fun _ => 0, act := id }

/-- A zero layer (zero weights and bias, identity activation). -/
def cLayerZ : Layer :=
  { inDim := 1, outDim := 1, rawWeight := fun _ _ => 0, biasVal := fun _ => 0
    useBias := true, constraint := none, normScale := fun _ => 1
    normShift := fun _ => 0, act := id }

/-- A one-step `PICNN1` satisfying all construction constraints whose `B_0`
branch has effective coefficient `-1` in the state input. -/
noncomputable def cNet1m : PICNN1 :=
  { steps := 1, inputNormDim := 1, inputNormScale := fun _ => 1
    inputNormShift := fun _ => 0, activations := fun _ => id, floorF := relu
    L := ⟨[]⟩, A := fun _ => cLayerA, U := fun _ => cLayerU
    B := fun _ => cLayerB1, V := fun _ => cLayerVneg, W := fun _ => cLayerZ }

lemma cNet1m_forward (x : Vec) : cNet1m.forward x vZero 0 = -x 0 := by
  rw [picnn1_forward_eq_spec]
  show picnn1SpecX cNet1m x vZero (0 + 1) 0 = -x 0
  rw [picnn1SpecX]
  simp [picnn1SpecX, picnn1SpecY, cNet1m, cLayerA, cLayerU, cLayerB1, cLayerVneg,
    cLayerZ, Layer.apply, Layer.linear, Layer.effWeight, vZero, relu]

/-- C2 counterexample: a one-step `PICNN1` with `exp`-constrained positive
`A_0` weights, rectifying floor and identity (convex increasing) step
activation on which `x_0^a = 0 ≤ 1 = x_0^b` elementwise yet
`forward(x_0^a, y_0) > forward(x_0^b, y_0)`: the unconstrained `B_0`/`V_0`
branch contributes the coefficient `-1`. -/
theorem picnn_monotone_counterexample :
    (∀ i, vZero i ≤ vOne i) ∧
    (cNet1m.A 0).constraint = some Real.exp ∧
    (∀ j i, 0 < (cNet1m.A 0).effWeight j i) ∧
    (∀ s, 0 ≤ (cNet1m.U 0).act s) ∧
    ConvexFn (cNet1m.activations 0) ∧ Monotone (cNet1m.activations 0) ∧
    ¬ (∀ j, cNet1m.forward vZero vZero j ≤ cNet1m.forward vOne vZero j) := by
  refine ⟨fun i => zero_le_one, rfl, fun j i => Real.exp_pos _,
    fun s => relu_nonneg s, id_convexFn, monotone_id, ?_⟩
  intro h
  have h0 := h 0
  rw [cNet1m_forward vZero, cNet1m_forward vOne] at h0
  norm_num [vZero, vOne] at h0

/-- C2 amended: for every variant and fixed `y_0`, if `x_0^a ≤ x_0^b`
elementwise and additionally every `B_k`-branch coefficient is non-negative
(non-negative normalization scales and non-negative products of `B_k` effective
weights with the `V_k` gate values), then
`forward(x_0^a, y_0) ≤ forward(x_0^b, y_0)` elementwise. -/
theorem picnn_forward_monotone_in_state :
    (∀ (net : PICNN1) (y xa xb : Vec),
      (∀ k, k < net.steps → (net.A k).act = id) →
      (∀ k, k < net.steps → (net.B k).act = id) →
      (∀ k, k < net.steps → ∀ j, 0 ≤ (net.A k).normScale j) →
      (∀ k, k < net.steps → ∀ j i, 0 ≤ (net.A k).effWeight j i) →
      (∀ k, k < net.steps → ∀ s, 0 ≤ (net.U k).act s) →
      (∀ k, k < net.steps → ∀ j, 0 ≤ (net.B k).normScale j) →
      (∀ k, k < net.steps → ∀ j i,
        0 ≤ (net.B k).effWeight j i * (net.V k).apply (picnn1SpecY net y k) i) →
      (∀ k, k < net.steps → Monotone (net.activations k)) →
      (∀ i, xa i ≤ xb i) →
      ∀ j, net.forward xa y j ≤ net.forward xb y j) ∧
    (∀ (net : PICNN2) (y xa xb : Vec),
      (∀ k, k < net.steps → (net.A k).act = id) →
      (∀ k, k < net.steps → (net.B k).act = id) →
      (∀ k, k < net.steps → ∀ j, 0 ≤ (net.A k).normScale j) →
      (∀ k, k < net.steps → ∀ j i, 0 ≤ (net.A k).effWeight j i) →
      (∀ k, k < net.steps → ∀ s, 0 ≤ (net.U k).act s) →
      (∀ k, k < net.steps → ∀ j, 0 ≤ (net.B k).normScale j) →
      (∀ k, k < net.steps → ∀ j i,
        0 ≤ (net.B k).effWeight j i * (net.V k).apply (net.L.apply y) i) →
      (∀ k, k < net.steps → Monotone (net.activations k)) →
      (∀ i, xa i ≤ xb i) →
      ∀ j, net.forward xa y j ≤ net.forward xb y j) ∧
    (∀ (net : PICNN3) (y xa xb : Vec),
      (∀ k, k < net.steps → (net.A k).act = id) →
      (∀ k, k < net.steps → (net.B k).act = id) →
      (∀ k, k < net.steps → ∀ j, 0 ≤ (net.A k).normScale j) →
      (∀ k, k < net.steps → ∀ j i, 0 ≤ (net.A k).effWeight j i) →
      (∀ k, k < net.steps → ∀ s, 0 ≤ (net.U k).act s) →
      (∀ k, k < net.steps → ∀ j, 0 ≤ (net.B k).normScale j) →
      (∀ k, k < net.steps → ∀ j i,
        0 ≤ (net.B k).effWeight j i * (net.V k).apply (net.L.apply y) i) →
      (∀ i, xa i ≤ xb i) →
      ∀ j, net.forward xa y j ≤ net.forward xb y j) := by
  refine ⟨?_, ?_, ?_⟩
  · intro net y xa xb hAact hBact hAs hAw hUact hBs hBv hgm hx j
    rw [picnn1_forward_eq_spec net xa y, picnn1_forward_eq_spec net xb y,
      picnn1SpecX_eq_runSteps, picnn1SpecX_eq_runSteps]
    exact runSteps_mono (net.stepData y) net.steps hAact hBact hAs hAw
      (fun k hk i => Layer.apply_nonneg _ (hUact k hk) _ i) hBs hBv
      (fun k hk j' => hgm k hk) xa xb hx j
  · intro net y xa xb hAact hBact hAs hAw hUact hBs hBv hgm hx j
    rw [picnn2_forward_eq_spec net xa y, picnn2_forward_eq_spec net xb y,
      picnn2SpecX_eq_runSteps, picnn2SpecX_eq_runSteps]
    exact runSteps_mono (net.stepData y) net.steps hAact hBact hAs hAw
      (fun k hk i => Layer.apply_nonneg _ (hUact k hk) _ i) hBs hBv
      (fun k hk j' => hgm k hk) xa xb hx j
  · intro net y xa xb hAact hBact hAs hAw hUact hBs hBv hx j
    rw [picnn3_forward_eq_spec net xa y, picnn3_forward_eq_spec net xb y,
      picnn3X_eq_runSteps, picnn3X_eq_runSteps]
    exact runSteps_mono (net.stepData y) net.steps hAact hBact hAs hAw
      (fun k hk i => Layer.apply_nonneg _ (hUact k hk) _ i) hBs hBv
      (fun k hk j' =>
        (celu_convexFn_monotone ((net.Y k).apply (net.L.apply y) j') celuEps).2)
      xa xb hx j

/-! ### Witness objects and witnesses -/

/-- A gate layer ending in a sigmoid. -/
noncomputable def cLayerY : Layer :=
  { inDim := 1, outDim := 1, rawWeight := fun _ _ => 0, biasVal := fun _ => 0
    useBias := true, constraint := none, normScale := fun _ => 1
    normShift := fun _ => 0, act := sigmoid }

/-- A one-step `PICNN1` with zero `B`-branch, used as convexity/monotonicity
witness. -/
noncomputable def cNet1w : PICNN1 :=
  { steps := 1, inputNormDim := 1, inputNormScale := fun _ => 1
    inputNormShift := fun _ => 0, activations := fun _ => id, floorF := relu
    L := ⟨[]⟩, A := fun _ => cLayerA, U := fun _ => cLayerU
    B := fun _ => cLayerB0, V := fun _ => cLayerZ, W := fun _ => cLayerZ }

/-- A one-step `PICNN2` with zero `B`-branch. -/
noncomputable def cNet2w : PICNN2 :=
  { steps := 1, inputNormDim := 1, inputNormScale := fun _ => 1
    inputNormShift := fun _ => 0, activations := fun _ => id, floorF := relu
    L := ⟨[]⟩, A := fun _ => cLayerA, U := fun _ => cLayerU
    B := fun _ => cLayerB0, V := fun _ => cLayerZ, W := fun _ => cLayerZ }

/-- A one-step `PICNN3` with zero `B`-branch and sigmoid gate. -/
noncomputable def cNet3w : PICNN3 :=
  { steps := 1, inputNormDim := 1, inputNormScale := fun _ => 1
    inputNormShift := fun _ => 0, floorF := relu
    L := ⟨[]⟩, A := fun _ => cLayerA, U := fun _ => cLayerU
    B := fun _ => cLayerB0, V := fun _ => cLayerZ, W := fun _ => cLayerZ
    Y := fun _ => cLayerY }

theorem picnn_forward_convex_in_state_witness :
    ((0:ℝ) ≤ 1/2 ∧ (1:ℝ)/2 ≤ 1) ∧
    (cNet1w.forward (mix (1/2) vOne vZero) vZero 0
      ≤ 1/2 * cNet1w.forward vOne vZero 0
        + (1 - 1/2) * cNet1w.forward vZero vZero 0) ∧
    (cNet2w.forward (mix (1/2) vOne vZero) vZero 0
      ≤ 1/2 * cNet2w.forward vOne vZero 0
        + (1 - 1/2) * cNet2w.forward vZero vZero 0) ∧
    (cNet3w.forward (mix (1/2) vOne vZero) vZero 0
      ≤ 1/2 * cNet3w.forward vOne vZero 0
        + (1 - 1/2) * cNet3w.forward vZero vZero 0) :=
  ⟨⟨by norm_num, by norm_num⟩,
    picnn_forward_convex_in_state.1 cNet1w vZero vOne vZero (1/2)
      (fun _ _ => rfl) (fun _ _ => rfl) (fun _ _ _ => zero_le_one)
      (fun _ _ _ _ => (Real.exp_pos _).le) (fun _ _ s => relu_nonneg s)
      (fun _ _ => ⟨id_convexFn, monotone_id⟩) (by norm_num) (by norm_num) 0,
    picnn_forward_convex_in_state.2.1 cNet2w vZero vOne vZero (1/2)
      (fun _ _ => rfl) (fun _ _ => rfl) (fun _ _ _ => zero_le_one)
      (fun _ _ _ _ => (Real.exp_pos _).le) (fun _ _ s => relu_nonneg s)
      (fun _ _ => ⟨id_convexFn, monotone_id⟩) (by norm_num) (by norm_num) 0,
    picnn_forward_convex_in_state.2.2 cNet3w vZero vOne vZero (1/2)
      (fun _ _ => rfl) (fun _ _ => rfl) (fun _ _ _ => zero_le_one)
      (fun _ _ _ _ => (Real.exp_pos _).le) (fun _ _ s => relu_nonneg s)
      (by norm_num) (by norm_num) 0⟩

theorem picnn_forward_monotone_in_state_witness :
    (∀ i, vZero i ≤ vOne i) ∧
    (cNet1w.forward vZero vZero 0 ≤ cNet1w.forward vOne vZero 0) ∧
    (cNet2w.forward vZero vZero 0 ≤ cNet2w.forward vOne vZero 0) ∧
    (cNet3w.forward vZero vZero 0 ≤ cNet3w.forward vOne vZero 0) :=
  ⟨fun _ => zero_le_one,
    picnn_forward_monotone_in_state.1 cNet1w vZero vZero vOne
      (fun _ _ => rfl) (fun _ _ => rfl) (fun _ _ _ => zero_le_one)
      (fun _ _ _ _ => (Real.exp_pos _).le) (fun _ _ s => relu_nonneg s)
      (fun _ _ _ => zero_le_one)
      (fun _ _ j i => by simp [Layer.effWeight, cNet1w, cLayerB0])
      (fun _ _ => monotone_id) (fun _ => zero_le_one) 0,
    picnn_forward_monotone_in_state.2.1 cNet2w vZero vZero vOne
      (fun _ _ => rfl) (fun _ _ => rfl) (fun _ _ _ => zero_le_one)
      (fun _ _ _ _ => (Real.exp_pos _).le) (fun _ _ s => relu_nonneg s)
      (fun _ _ _ => zero_le_one)
      (fun _ _ j i => by simp [Layer.effWeight, cNet2w, cLayerB0])
      (fun _ _ => monotone_id) (fun _ => zero_le_one) 0,
    picnn_forward_monotone_in_state.2.2 cNet3w vZero vZero vOne
      (fun _ _ => rfl) (fun _ _ => rfl) (fun _ _ _ => zero_le_one)
      (fun _ _ _ _ => (Real.exp_pos _).le) (fun _ _ s => relu_nonneg s)
      (fun _ _ _ => zero_le_one)
      (fun _ _ j i => by simp [Layer.effWeight, cNet3w, cLayerB0])
      (fun _ => zero_le_one) 0⟩

/-- A successfully constructed concrete `PICNN1`. -/
noncomputable def net1c : PICNN1 :=
  getOk (PICNN1.make r0 [1, 1] [2, 3] none none none none Opts.default) dfltPICNN1

/-- A successfully constructed concrete `PICNN2`. -/
noncomputable def net2c : PICNN2 :=
  getOk (PICNN2.make r0 [1, 1] [2, 3] none none none none Opts.default) dfltPICNN2

/-- A successfully constructed concrete `PICNN3`. -/
noncomputable def net3c : PICNN3 :=
  getOk (PICNN3.make r0 [1, 1] [2, 3] none none none Opts.default) dfltPICNN3

theorem picnn2_single_full_embedding_witness :
    PICNN2.make r0 [1, 1] [2, 3] none none none none Opts.default
        = Except.ok net2c ∧
    0 < net2c.steps ∧
    ∃ m, expectLast [2, 3] = Except.ok m ∧
      (net2c.U 0).inDim = m.toNat ∧ (net2c.V 0).inDim = m.toNat ∧
      (net2c.W 0).inDim = m.toNat :=
  ⟨rfl, Nat.zero_lt_one,
    picnn2_single_full_embedding.2 r0 [1, 1] [2, 3] none none none none
      Opts.default net2c rfl 0 Nat.zero_lt_one⟩

theorem aWeights_strictly_positive_witness :
    PICNN1.make r0 [1, 1] [2, 3] none none none none Opts.default
        = Except.ok net1c ∧
    0 < net1c.steps ∧
    ((net1c.A 0).constraint = some Real.exp ∧
      (∀ j i, 0 < (net1c.A 0).effWeight j i) ∧
      ∀ rw : ℕ → ℕ → ℝ, ∀ j i,
        0 < ({ net1c.A 0 with rawWeight := rw } : Layer).effWeight j i) :=
  ⟨rfl, Nat.zero_lt_one,
    aWeights_strictly_positive.1 r0 [1, 1] [2, 3] none none none none
      Opts.default net1c rfl 0 Nat.zero_lt_one⟩

theorem picnn3_gate_witness :
    PICNN3.make r0 [1, 1] [2, 3] none none none Opts.default = Except.ok net3c ∧
    0 < net3c.steps ∧
    (net3c.Y 0).act = sigmoid ∧
    (0 < (net3c.Y 0).apply (net3c.L.apply vZero) 0 ∧
      (net3c.Y 0).apply (net3c.L.apply vZero) 0 < 1 ∧
      celuEps < (net3c.Y 0).apply (net3c.L.apply vZero) 0 + celuEps ∧
      (net3c.Y 0).apply (net3c.L.apply vZero) 0 + celuEps < 1 + celuEps) :=
  have hact : (net3c.Y 0).act = sigmoid :=
    picnn3_gate_strictly_in_unit_interval.1 r0 [1, 1] [2, 3] none none none
      Opts.default net3c rfl 0 Nat.zero_lt_one
  ⟨rfl, Nat.zero_lt_one, hact,
    picnn3_gate_strictly_in_unit_interval.2 net3c 0 vZero 0 hact⟩

/-! ### C7 -/

lemma expectIdx_of_get? {l : List ℤ} {i : ℕ} {v : ℤ} (h : l.get? i = some v) :
    expectIdx l i = Except.ok v := by
  unfold expectIdx
  rw [h]

lemma mkLayer_ok_pos {rand : ℕ → ℕ → ℝ} {i o : ℤ} {a : Option (ℝ → ℝ)}
    {b bn bna : Bool} {c : Option (ℝ → ℝ)} {u : Option (ℝ × ℝ)} {L : Layer}
    (h : mkLayer rand i o a b bn bna c u = Except.ok L) : 0 < i ∧ 0 < o := by
  unfold mkLayer at h
  by_cases hcond : i ≤ 0 ∨ o ≤ 0
  · rw [if_pos hcond] at h
    exact absurd h (by simp)
  · push_neg at hcond
    exact ⟨hcond.1, hcond.2⟩

lemma fromConfig_error {rand : ℕ → ℕ → ℕ → ℝ} {sizes : List ℤ} {ha : ℝ → ℝ}
    {oa : Option (ℝ → ℝ)} {b : Bool}
    (hbad : sizes.length < 2 ∨ ∃ d ∈ sizes, d ≤ 0) :
    FFN.fromConfig rand sizes ha oa b = Except.error BuildError.configError := by
  unfold FFN.fromConfig
  rcases hbad with hlen | ⟨d, hd, hle⟩
  · rw [if_pos (Or.inl hlen)]
  · refine if_pos (Or.inr ?_)
    exact List.any_eq_true.mpr ⟨d, hd, decide_eq_true hle⟩

/-- If every per-step bundle of a construction read entries `k` and `k+1` of
`input_config` through a successful layer build, every entry of
`input_config` is positive. -/
lemma ic_all_pos_of_reads {ic : List ℤ} (hlen : 2 ≤ ic.length)
    (hread : ∀ k, k < ic.length - 1 →
      ∃ ni ni1 : ℤ, expectIdx ic k = Except.ok ni ∧ 0 < ni ∧
        expectIdx ic (k + 1) = Except.ok ni1 ∧ 0 < ni1) :
    ∀ d ∈ ic, 0 < d := by
  intro d hd
  rcases List.mem_iff_get?.mp hd with ⟨idx, hidx⟩
  have hidxlt : idx < ic.length := by
    rcases List.get?_eq_some.mp hidx with ⟨h1, -⟩
    exact h1
  by_cases hcase : idx < ic.length - 1
  · rcases hread idx hcase with ⟨ni, ni1, h1, hpos, -, -⟩
    have he : d = ni := Except.ok.inj ((expectIdx_of_get? hidx).symm.trans h1)
    rw [he]
    exact hpos
  · have hk : ic.length - 2 < ic.length - 1 := by omega
    rcases hread (ic.length - 2) hk with ⟨ni, ni1, -, -, h2, hpos1⟩
    have harith : ic.length - 2 + 1 = idx := by omega
    rw [harith] at h2
    have he : d = ni1 := Except.ok.inj ((expectIdx_of_get? hidx).symm.trans h2)
    rw [he]
    exact hpos1

/-- C7 counterexample: constructing `PICNN1` with the malformed
`input_config = [5]` (length 1 < 2) and a well-formed `param_config` raises no
error at all — it succeeds and yields a zero-step network — contradicting the
claim that a length-< 2 `input_config` raises a `ConfigurationError` at
construction time. -/
theorem config_validation_counterexample :
    (([5] : List ℤ).length < 2) ∧
    isOkE (PICNN1.make r0 [5] [3, 3] none none none none Opts.default) = true ∧
    (getOk (PICNN1.make r0 [5] [3, 3] none none none none Opts.default)
        dfltPICNN1).steps = 0 :=
  ⟨by decide, rfl, rfl⟩

/-- C7 amended: constructing any variant with a malformed `param_config`
(length < 2 or a non-positive entry), or with a non-positive dimension in an
`input_config` of length ≥ 2, fails at construction time; but an
`input_config` of length < 2 by itself is accepted without error (see the
counterexample). -/
theorem config_errors_at_construction :
    ∀ (r : ℕ → ℕ → ℕ → ℕ → ℝ) (ic pc : List ℤ)
      (ha oa pha poa : Option (ℝ → ℝ)) (opts : Opts),
      ((pc.length < 2 ∨ ∃ d ∈ pc, d ≤ 0) ∨
        (2 ≤ ic.length ∧ ∃ d ∈ ic, d ≤ 0)) →
      isOkE (PICNN1.make r ic pc ha oa pha poa opts) = false ∧
      isOkE (PICNN2.make r ic pc ha oa pha poa opts) = false ∧
      isOkE (PICNN3.make r ic pc oa pha poa opts) = false := by
  intro r ic pc ha oa pha poa opts hbad
  refine ⟨?_, ?_, ?_⟩
  · cases hmk : PICNN1.make r ic pc ha oa pha poa opts with
    | error e => rfl
    | ok net =>
        exfalso
        rcases picnn1_make_ok hmk with ⟨-, -, hffn, hstep⟩
        rcases hbad with hpc | ⟨hlen, d, hd, hdle⟩
        · rw [fromConfig_error hpc] at hffn
          exact Except.noConfusion hffn
        · have hread : ∀ k, k < ic.length - 1 →
              ∃ ni ni1 : ℤ, expectIdx ic k = Except.ok ni ∧ 0 < ni ∧
                expectIdx ic (k + 1) = Except.ok ni1 ∧ 0 < ni1 := by
            intro k hk
            rcases hstep k hk with ⟨t, hmkl, -, -, -, -, -⟩
            rcases picnn1_mkStep_ok hmkl with
              ⟨ni, ni1, mi, n0, h1, h2, -, -, hla, -, -, -, -⟩
            have hpos := mkLayer_ok_pos hla
            exact ⟨ni, ni1, h1, hpos.1, h2, hpos.2⟩
          exact absurd (ic_all_pos_of_reads hlen hread d hd) (not_lt.mpr hdle)
  · cases hmk : PICNN2.make r ic pc ha oa pha poa opts with
    | error e => rfl
    | ok net =>
        exfalso
        rcases picnn2_make_ok hmk with ⟨-, -, hffn, hstep⟩
        rcases hbad with hpc | ⟨hlen, d, hd, hdle⟩
        · rw [fromConfig_error hpc] at hffn
          exact Except.noConfusion hffn
        · have hread : ∀ k, k < ic.length - 1 →
              ∃ ni ni1 : ℤ, expectIdx ic k = Except.ok ni ∧ 0 < ni ∧
                expectIdx ic (k + 1) = Except.ok ni1 ∧ 0 < ni1 := by
            intro k hk
            rcases hstep k hk with ⟨t, hmkl, -, -, -, -, -⟩
            rcases picnn2_mkStep_ok hmkl with
              ⟨ni, ni1, m, n0, h1, h2, -, -, hla, -, -, -, -⟩
            have hpos := mkLayer_ok_pos hla
            exact ⟨ni, ni1, h1, hpos.1, h2, hpos.2⟩
          exact absurd (ic_all_pos_of_reads hlen hread d hd) (not_lt.mpr hdle)
  · cases hmk : PICNN3.make r ic pc oa pha poa opts with
    | error e => rfl
    | ok net =>
        exfalso
        rcases picnn3_make_ok hmk with ⟨-, -, hffn, hstep⟩
        rcases hbad with hpc | ⟨hlen, d, hd, hdle⟩
        · rw [fromConfig_error hpc] at hffn
          exact Except.noConfusion hffn
        · have hread : ∀ k, k < ic.length - 1 →
              ∃ ni ni1 : ℤ, expectIdx ic k = Except.ok ni ∧ 0 < ni ∧
                expectIdx ic (k + 1) = Except.ok ni1 ∧ 0 < ni1 := by
            intro k hk
            rcases hstep k hk with ⟨t, hmkl, -, -, -, -, -, -⟩
            rcases picnn3_mkStep_ok hmkl with
              ⟨ni, ni1, m, n0, h1, h2, -, -, hla, -, -, -, -, -⟩
            have hpos := mkLayer_ok_pos hla
            exact ⟨ni, ni1, h1, hpos.1, h2, hpos.2⟩
          exact absurd (ic_all_pos_of_reads hlen hread d hd) (not_lt.mpr hdle)

theorem config_errors_at_construction_witness :
    ((([3] : List ℤ).length < 2 ∨ ∃ d ∈ ([3] : List ℤ), d ≤ 0) ∨
      (2 ≤ ([1, 1] : List ℤ).length ∧ ∃ d ∈ ([1, 1] : List ℤ), d ≤ 0)) ∧
    (isOkE (PICNN1.make r0 [1, 1] [3] none none none none Opts.default) = false ∧
      isOkE (PICNN2.make r0 [1, 1] [3] none none none none Opts.default) = false ∧
      isOkE (PICNN3.make r0 [1, 1] [3] none none none Opts.default) = false) :=
  ⟨Or.inl (Or.inl (by decide)),
    config_errors_at_construction r0 [1, 1] [3] none none none none Opts.default
      (Or.inl (Or.inl (by decide)))⟩

/-! ### Shape-level semantics (for the shape contract claim)

Batched 2-D tensors are tracked as (batch, trailing width) pairs; elementwise
binary torch operations broadcast a dimension when the sizes agree or one of
them is 1, `nn.Linear` demands the exact trailing width, and `BatchNorm1d`
demands the exact feature width. -/

